import Mathlib

/-!
Verification development for `src/mouse/build_allen_mouse_atlas.py`.

The source is a single Python script that builds a flat list of cross
referencing graph nodes (the atlas document) from a tabular ontology and a
directory listing of mesh files.  This file gives a shallow embedding of the
script's data model and operations:

* Python `dict`s become insertion-ordered association lists (`Dict`);
  a lookup that can raise `KeyError` returns an `Option`.
* Python values that are "int or string" (the result of `possibly_int`)
  become the `Cell` inductive.
* Python string formatting of integers is modelled by `intStr`, a decimal
  printer proved injective below.
* Functions that can raise return `Option`; `none` models an uncaught
  exception aborting the run.
-/

namespace AllenAtlas

/-! ### Decimal printing of integers (models Python `str.format` of an int) -/

/-- The character for a single decimal digit (`d ≤ 9`). -/
def digitChar (d : Nat) : Char :=
  if d = 0 then '0' else if d = 1 then '1' else if d = 2 then '2'
  else if d = 3 then '3' else if d = 4 then '4' else if d = 5 then '5'
  else if d = 6 then '6' else if d = 7 then '7' else if d = 8 then '8' else '9'

/-- Fuel-driven decimal digit list of a natural number (most significant first).
The fuel is structurally decreasing so the kernel can evaluate it. -/
def natDigitsAux : Nat → Nat → List Char
  | 0, _ => []
  | fuel + 1, n =>
    if n < 10 then [digitChar n]
    else natDigitsAux fuel (n / 10) ++ [digitChar (n % 10)]

/-- Decimal digit list of a natural number. -/
def natDigits (n : Nat) : List Char := natDigitsAux (n + 1) n

/-- Decimal string of a natural number. -/
def natStr (n : Nat) : String := ⟨natDigits n⟩

/-- Decimal string of an integer, with a leading minus sign when negative;
models Python's `str`/`format` of an `int`. -/
def intStr (n : Int) : String := if n < 0 then "-" ++ natStr n.natAbs else natStr n.toNat

/-- Numeric value of a digit character. -/
def dval (c : Char) : Nat := c.toNat - 48

/-- Value of a decimal digit list (most significant first). -/
def lval (cs : List Char) : Nat := cs.foldl (fun a c => 10 * a + dval c) 0

/-! ### Insertion-ordered dictionaries (model of Python `dict`) -/

/-- A Python `dict` with keys of type `κ`: an association list in insertion
order, keys unique by construction of `dinsert`. -/
abbrev Dict (κ : Type) (α : Type) := List (κ × α)

/-- `d[k]`, returning `none` instead of raising `KeyError`. -/
def dlookup {κ α : Type} [DecidableEq κ] (d : Dict κ α) (k : κ) : Option α :=
  (d.find? (fun p => p.1 = k)).map Prod.snd

/-- `d[k] = v`: replaces the value at an existing key in place (keeping the
key's original position, as Python dicts do) or appends a new binding. -/
def dinsert {κ α : Type} [DecidableEq κ] (d : Dict κ α) (k : κ) (v : α) : Dict κ α :=
  if d.any (fun p => p.1 = k) then d.map (fun p => if p.1 = k then (k, v) else p)
  else d ++ [(k, v)]

/-- `d.values()` in insertion order. -/
def dvalues {κ α : Type} (d : Dict κ α) : List α := d.map Prod.snd

/-- `d.keys()` in insertion order. -/
def dkeys {κ α : Type} (d : Dict κ α) : List κ := d.map Prod.fst

/-- First-occurrence deduplication, the key order produced by repeated
`dinsert` (and our model of iterating a Python `set` in insertion order). -/
def dedupF {α : Type} [DecidableEq α] (l : List α) : List α :=
  l.foldl (fun acc x => if x ∈ acc then acc else acc ++ [x]) []

/-! ### Python `int()` and `possibly_int` -/

/-- Strip leading and trailing whitespace, as Python `int()` does before
parsing (ASCII whitespace model). -/
def pyTrim (cs : List Char) : List Char :=
  ((cs.dropWhile Char.isWhitespace).reverse.dropWhile Char.isWhitespace).reverse

/-- Continuation of a valid Python integer-literal digit run: a sequence of
digits in which an underscore may appear only between two digits. -/
def pyDigitsTail : List Char → Bool
  | [] => true
  | c :: cs =>
    if c = '_' then
      match cs with
      | [] => false
      | c2 :: cs2 => c2.isDigit && pyDigitsTail cs2
    else c.isDigit && pyDigitsTail cs

/-- A valid Python base-10 digit run: nonempty, starts with a digit,
underscores only between digits. -/
def pyDigitsOK : List Char → Bool
  | [] => false
  | c :: cs => c.isDigit && pyDigitsTail cs

/-- Numeric value of a digit run with its grouping underscores removed. -/
def digitsValue (cs : List Char) : Nat := lval (cs.filter (fun c => c ≠ '_'))

/-- Parse an optional sign followed by a digit run. -/
def pyIntCore : List Char → Option Int
  | '+' :: rest => if pyDigitsOK rest then some (Int.ofNat (digitsValue rest)) else none
  | '-' :: rest => if pyDigitsOK rest then some (-Int.ofNat (digitsValue rest)) else none
  | cs => if pyDigitsOK cs then some (Int.ofNat (digitsValue cs)) else none

/-- Python `int(s)` for base 10: `some` the value, `none` models the
`ValueError` raised on unparseable input. -/
def pyInt (s : String) : Option Int := pyIntCore (pyTrim s.data)

/-- The value of one CSV cell after loading: Python stores either an `int` or
the original `str`. -/
inductive Cell where
  | int (n : Int) : Cell
  | str (s : String) : Cell
deriving DecidableEq

/-- `possibly_int` from the source: return `int(x)` if that succeeds, else
the original string. -/
def possibly_int (x : String) : Cell :=
  match pyInt x with
  | some n => Cell.int n
  | none => Cell.str x

/-! ### Ontology loader (`get_allen_mouse_ontology`) -/

/-- One loaded ontology record: field name to cell value, in column order
(Python builds `{k: possibly_int(v) for k, v in data._asdict().items()}`). -/
abbrev Record := List (String × Cell)

/-- The record built from one CSV row. -/
def mkRecord (header : List String) (row : List String) : Record :=
  (header.zip row).map (fun kv => (kv.1, possibly_int kv.2))

/-- `int(data.id)`: the raw cell of the `id` column, parsed as an integer.
`none` models the `AttributeError`/`ValueError` when the column is missing or
the cell does not parse. -/
def rowKey (header : List String) (row : List String) : Option Int :=
  match header.findIdx? (fun s => s == "id") with
  | none => none
  | some i => (row.get? i).bind pyInt

/-- One iteration of the loader loop: check the row arity (`Data._make`),
parse the `id` key, and index the record. -/
def loaderStep (header : List String) (results : Dict Int Record) (row : List String) :
    Option (Dict Int Record) :=
  if row.length = header.length then
    match rowKey header row with
    | some n => some (dinsert results n (mkRecord header row))
    | none => none
  else none

/-- `get_allen_mouse_ontology`, with the network/CSV layer abstracted to a
header row and a list of data rows.  A row of the wrong length models the
failure of `Data._make`; an unusable `id` cell aborts the load. -/
def get_allen_mouse_ontology (header : List String) (rows : List (List String)) :
    Option (Dict Int Record) :=
  rows.foldlM (loaderStep header) []

/-! ### Ontology entries and the hierarchy linker (`find_children`) -/

/-- Typed view of an ontology record, carrying exactly the fields the linker
and the builder read.  `child_structure_ids = none` models the field being
absent from the Python dict. -/
structure Entry where
  id : Cell
  parent_structure_id : Cell
  color_hex_triplet : Cell
  safe_name : Cell
  acronym : Cell
  child_structure_ids : Option (List Cell) := none
deriving DecidableEq

/-- `ontology[parent_id]` where `parent_id` is a loaded cell: an `int` cell is
looked up among the integer keys, a string cell never matches one (Python
`KeyError`, modelled as `none`). -/
def pylookup (ont : Dict Int Entry) (c : Cell) : Option (Int × Entry) :=
  match c with
  | Cell.int n => (dlookup ont n).map (fun e => (n, e))
  | Cell.str _ => none

/-- The loop of `find_children`, iterating over the entries (by key, in
insertion order) of the current state.  Each entry with a non-empty
`parent_structure_id` appends its own `id` to the parent's
`child_structure_ids` list, creating that list on first use; a parent that
does not resolve aborts (`KeyError`). -/
def fc_go : Dict Int Entry → List Int → Option (Dict Int Entry)
  | st, [] => some st
  | st, k :: ks =>
    match dlookup st k with
    | none => none
    | some e =>
      if e.parent_structure_id = Cell.str "" then fc_go st ks
      else
        match pylookup st e.parent_structure_id with
        | none => none
        | some (q, pe) =>
          let cl := pe.child_structure_ids.getD []
          let pe2 := { pe with child_structure_ids := some (cl ++ [e.id]) }
          fc_go (dinsert st q pe2) ks

/-- `find_children` from the source. -/
def find_children (ont : Dict Int Entry) : Option (Dict Int Entry) :=
  fc_go ont (dkeys ont)

/-- Whether the entry at key `j` (in the original ontology) has parent `q`. -/
def isChildOf (ont : Dict Int Entry) (q : Int) (j : Int) : Bool :=
  match dlookup ont j with
  | some e => e.parent_structure_id = Cell.int q
  | none => false

/-- The keys among `ps` (the processed prefix, in order) whose entries have
parent `q`. -/
def childKeys (ont : Dict Int Entry) (ps : List Int) (q : Int) : List Int :=
  ps.filter (isChildOf ont q)

/-- The entry at key `k` after the children collected from `ps` have been
attached; an empty collection leaves the entry untouched (the
`child_structure_ids` field is only created on first use). -/
def linkEntry (ont : Dict Int Entry) (ps : List Int) (k : Int) (e : Entry) : Entry :=
  match childKeys ont ps k with
  | [] => e
  | l => { e with child_structure_ids := some (l.map Cell.int) }

/-- The linker state after the keys `ps` have been processed. -/
def partialLink (ont : Dict Int Entry) (ps : List Int) : Dict Int Entry :=
  ont.map (fun p => (p.1, linkEntry ont ps p.1 p.2))

/-! ### Graph node model

A graph node is a Python dict with a fixed repertoire of fields; absent
fields are `none`.  The `@type` value is either a single string or a list of
strings (`TyVal`).  The source's `annotation` field is called `annot` here;
`color` stands for the nested `style.color`, and `Shape` for the nested
`shape` dict (whose own `@type` is always the constant `"Shape"`). -/

inductive TyVal where
  | s (v : String) : TyVal
  | l (vs : List String) : TyVal
deriving DecidableEq

inductive Ann where
  | res (spatialResolutionMicrons : Int) : Ann
  | info (name acronym allenAtlasId : Cell) : Ann
  | doc (name : String) (about : List String) : Ann
deriving DecidableEq

structure Shape where
  dataSource : List String
deriving DecidableEq

structure Node where
  id : String
  type : Option TyVal := none
  url : Option String := none
  baseURL : Option String := none
  mimeType : Option String := none
  source : Option String := none
  annot : Option Ann := none
  color : Option String := none
  shape : Option Shape := none
  members : Option (List String) := none
  root : Option (List String) := none
  formatVersion : Option String := none
  backgroundImage : Option (List String) := none
deriving DecidableEq

def FormatVersion : String := "0.9"

/-- The `Header` node constructor.  `backgroundImages = []` models passing
`None` (both are falsy in the source's truthiness test). -/
def Header (id_ : String) (roots backgroundImages : List Node) (annot : Option Ann) : Node :=
  { id := id_
    type := some (TyVal.s "Header")
    root := some (roots.map Node.id)
    formatVersion := some FormatVersion
    backgroundImage :=
      if backgroundImages.isEmpty then none else some (backgroundImages.map Node.id)
    annot := annot }

def BaseURL (id_ url : String) : Node :=
  { id := id_, type := some (TyVal.s "BaseURL"), url := some url }

/-- The `DataSource` node constructor.  `extra_types = []` models passing
`None`: the `@type` stays the single string `"DataSource"`. -/
def DataSource (id_ : String) (base : Node) (mimeType source : String)
    (annot : Option Ann) (extra_types : List String) : Node :=
  { id := id_
    type := some (if extra_types.isEmpty then TyVal.s "DataSource"
      else TyVal.l ("DataSource" :: extra_types))
    baseURL := some base.id
    mimeType := some mimeType
    source := some source
    annot := annot }

/-- The `Structure` node constructor.  `structure_id` is accepted and unused,
exactly as in the source. -/
def Structure (id_ : String) (structure_id : Int) (color : String) (mesh_ds : Node)
    (label_ds : List Node) (is_group : Bool) (annot : Option Ann) : Node :=
  { id := id_
    type := some (if is_group then TyVal.l ["Structure", "Group"] else TyVal.s "Structure")
    color := some color
    shape := some ⟨mesh_ds.id :: label_ds.map Node.id⟩
    annot := annot }

/-- `list(set(l) ∪ {x})`; Python's set iteration order is unspecified, we
model it as first-occurrence order. -/
def pySetAddList (l : List String) (x : String) : List String :=
  let d := dedupF l
  if x ∈ d then d else d ++ [x]

/-- `add_members_to_group` from the source: add `m` to `s`'s member set and
widen `s`'s `@type` with the `Group` tag. -/
def add_members_to_group (s m : Node) : Node :=
  let s1 : Node := { s with members := some (match s.members with
      | some ms => pySetAddList ms m.id
      | none => [m.id]) }
  match s1.type with
  | none => { s1 with type := some (TyVal.s "Group") }
  | some t =>
    if t = TyVal.s "Group" then s1
    else
      match t with
      | TyVal.s v => { s1 with type := some (TyVal.l [v, "Group"]) }
      | TyVal.l ts =>
        if "Group" ∈ ts then s1
        else { s1 with type := some (TyVal.l (dedupF ts ++ ["Group"])) }

def Group (id_ : String) (children : List Node) (color : String) (annot : Option Ann) : Node :=
  { id := id_
    type := some (TyVal.s "Group")
    annot := annot
    color := some color
    members := some (children.map Node.id) }

/-! ### `build_atlas` -/

def AllenDownloadBaseURL : String :=
  "http://download.alleninstitute.org/informatics-archive/current-release/mouse_ccf/"

def MouseCCFAverageTemplateBaseURL : String := AllenDownloadBaseURL ++ "average_template/"

def MouseCCFAraNisslURL : String := AllenDownloadBaseURL ++ "ara_nissl/"

def MouseCCFDownloadBaseURL : String := AllenDownloadBaseURL ++ "annotation/ccf_2017/"

def MouseCCFMeshBaseURL : String := MouseCCFDownloadBaseURL ++ "structure_meshes/"

def MouseCCFMaskBaseURL : String := MouseCCFDownloadBaseURL ++ "structure_masks/"

def resolutions : List Int := [10, 25, 50, 100]

def mesh_base : Node := BaseURL "#mesh_base_url" MouseCCFMeshBaseURL

def mask_base : Node := BaseURL "#mask_base_url" MouseCCFMaskBaseURL

def download_base : Node := BaseURL "#mesh_download_url" MouseCCFDownloadBaseURL

def average_template_base : Node :=
  BaseURL "#average_template_base_url" MouseCCFAverageTemplateBaseURL

def ara_nissl_base : Node := BaseURL "#ara_nissl_base_url" MouseCCFAraNisslURL

/-- `"#mesh_ds_{mid}"`. -/
def meshId (m : Int) : String := "#mesh_ds_" ++ intStr m

/-- `"#mask_ds_{r}_{mid}"`. -/
def maskId (r m : Int) : String := "#mask_ds_" ++ intStr r ++ "_" ++ intStr m

/-- `"#structure_{mid}"`. -/
def structId (m : Int) : String := "#structure_" ++ intStr m

/-- `'{}'.format(cell)` for a loaded cell. -/
def cellFmt : Cell → String
  | Cell.int n => intStr n
  | Cell.str s => s

def meshDSNode (mid : Int) : Node :=
  DataSource (meshId mid) mesh_base "text/plain" (intStr mid ++ ".obj") none
    ["GeometryDataSource", "TriangleMeshDataSource"]

def maskDSNode (r mid : Int) : Node :=
  DataSource (maskId r mid) download_base "application/octet-stream"
    ("structure_masks_" ++ intStr r ++ "/structure_" ++ intStr mid ++ ".nrrd")
    (some (Ann.res r)) ["ImageDataSource", "VoxelMaskDataSource"]

/-- `"#average_template_ds_{r}"`. -/
def avgId (r : Int) : String := "#average_template_ds_" ++ intStr r

/-- `"#ara_nissl_ds_{r}"`. -/
def nisslId (r : Int) : String := "#ara_nissl_ds_" ++ intStr r

def avgDSNode (r : Int) : Node :=
  DataSource (avgId r) average_template_base
    "application/octet-stream" ("average_template_" ++ intStr r ++ ".nrrd")
    (some (Ann.res r)) ["ImageDataSource", "AverageTemplateDataSource"]

def nisslDSNode (r : Int) : Node :=
  DataSource (nisslId r) ara_nissl_base
    "application/octet-stream" ("ara_nissl_" ++ intStr r ++ ".nrrd")
    (some (Ann.res r)) ["ImageDataSource", "AraNisslDataSource"]

/-- The `Structure` node built for one mesh id in the `structures` loop. -/
def mkStructureNode (e : Entry) (mid : Int) (mesh_ds : Node) (label_ds : List Node) : Node :=
  Structure (structId mid) mid ("#" ++ cellFmt e.color_hex_triplet) mesh_ds label_ds false
    (some (Ann.info e.safe_name e.acronym e.id))

/-- The `structures` loop of `build_atlas`: each iteration reads
`ontology[mid]`, `mesh_data_sources[mid]` and `label_data_sources[mid]` (a
missing key raises `KeyError`, modelled as `none`) and stores the new
`Structure` node under `mid`. -/
def build_structures (ontology : Dict Int Entry) (mesh_ds : Dict Int Node)
    (label_ds : Dict Int (Dict Int Node)) :
    List Int → Dict Int Node → Option (Dict Int Node)
  | [], acc => some acc
  | mid :: rest, acc =>
    match dlookup ontology mid, dlookup mesh_ds mid, dlookup label_ds mid with
    | some e, some mds, some lds =>
      build_structures ontology mesh_ds label_ds rest
        (dinsert acc mid (mkStructureNode e mid mds (dvalues lds)))
    | _, _, _ => none

def headerAbout : List String :=
  ["http://help.brain-map.org/display/mousebrain/",
   "http://help.brain-map.org/display/mousebrain/API",
   "http://portal.brain-map.org/"]

/-- The `mesh_data_sources` dict of `build_atlas`. -/
def mesh_dss (mesh_ids : List Int) : Dict Int Node :=
  mesh_ids.foldl (fun d mid => dinsert d mid (meshDSNode mid)) []

/-- The `label_data_sources` dict of `build_atlas` (one inner per-resolution
dict per mesh id; a duplicate mesh id resets and refills its inner dict with
the same value). -/
def label_dss (mesh_ids : List Int) : Dict Int (Dict Int Node) :=
  mesh_ids.foldl
    (fun d mid => dinsert d mid (resolutions.map (fun r => (r, maskDSNode r mid)))) []

/-- `build_atlas` from the source.  The statically disabled `if False:`
group-building block is omitted, as it never runs.  The per-resolution
`average_templates` and `ara_nissl` loops insert distinct keys in order, so
they are written directly as their resulting dicts. -/
def build_atlas (ontology : Dict Int Entry) (mesh_ids : List Int) : Option (List Node) :=
  let base_nodes : List Node :=
    [mesh_base, mask_base, download_base, average_template_base, ara_nissl_base]
  let mesh_data_sources : Dict Int Node := mesh_dss mesh_ids
  let label_data_sources : Dict Int (Dict Int Node) := label_dss mesh_ids
  match build_structures ontology mesh_data_sources label_data_sources mesh_ids [] with
  | none => none
  | some structures =>
    let average_templates : Dict Int Node := resolutions.map (fun r => (r, avgDSNode r))
    let ara_nissl : Dict Int Node := resolutions.map (fun r => (r, nisslDSNode r))
    match dlookup structures 997 with
    | none => none
    | some root =>
      let header := Header "#__header__" [root] (dvalues average_templates)
        (some (Ann.doc "Allen Mouse CCF Atlas" headerAbout))
      some (header :: (base_nodes ++ dvalues mesh_data_sources
        ++ (dvalues label_data_sources).flatMap dvalues
        ++ dvalues structures ++ dvalues average_templates ++ dvalues ara_nissl))

/-! ### Mesh discovery (`get_mesh_names`, `get_mesh_ids`) -/

/-- `'.obj' in line` (substring test). -/
def containsObj : List Char → Bool
  | [] => false
  | c :: cs => ((c :: cs).take 4 = ['.', 'o', 'b', 'j']) || containsObj cs

/-- Try to match the regex `\d+\.obj` anchored at the start of `cs`.  The
greedy `\d+` cannot backtrack usefully here (a shorter digit run is still
followed by a digit, not by `'.'`), so the maximal digit run is the only
candidate. -/
def matchAt (cs : List Char) : Option (List Char) :=
  let ds := cs.takeWhile Char.isDigit
  if ds.isEmpty then none
  else if (cs.drop ds.length).take 4 = ['.', 'o', 'b', 'j'] then
    some (ds ++ ['.', 'o', 'b', 'j'])
  else none

/-- `re.search(r'(\d+\.obj)', line)`: the leftmost match of `\d+\.obj`. -/
def lineMatch : List Char → Option (List Char)
  | [] => none
  | c :: cs =>
    match matchAt (c :: cs) with
    | some m => some m
    | none => lineMatch cs

/-- One loop iteration's extraction: skip the line unless it contains
`.obj`, then search for the pattern; a line with no match is skipped. -/
def extractMesh (line : String) : Option String :=
  if containsObj line.data then (lineMatch line.data).map (fun m => ⟨m⟩) else none

/-- `get_mesh_names` with the directory listing abstracted to its lines:
accumulates matched filenames into a set, returned as a list (Python's set
order is unspecified; we model insertion order). -/
def get_mesh_names (lines : List String) : List String :=
  lines.foldl (fun meshes line =>
    match extractMesh line with
    | none => meshes
    | some m => if m ∈ meshes then meshes else meshes ++ [m]) []

/-- `m.replace('.obj', '')`: remove every (non-overlapping, left-to-right)
occurrence of `.obj`. -/
def replObj : List Char → List Char
  | '.' :: 'o' :: 'b' :: 'j' :: rest => replObj rest
  | c :: cs => c :: replObj cs
  | [] => []

/-- `get_mesh_ids`: `int(m.replace('.obj', ''))` for each discovered name;
`none` models an (in fact unreachable) `ValueError`. -/
def get_mesh_ids (lines : List String) : Option (List Int) :=
  (get_mesh_names lines).mapM (fun m => pyInt ⟨replObj m.data⟩)

/-! ### Canonical form of a successful `build_atlas` run -/

/-- Placeholder entry for the total lookup `entryAt`; unreachable under the
success hypotheses. -/
def defaultEntry : Entry :=
  { id := Cell.str ""
    parent_structure_id := Cell.str ""
    color_hex_triplet := Cell.str ""
    safe_name := Cell.str ""
    acronym := Cell.str "" }

/-- The ontology entry at key `m`, total version. -/
def entryAt (ont : Dict Int Entry) (m : Int) : Entry := (dlookup ont m).getD defaultEntry

/-- The `Structure` node `build_atlas` emits for mesh id `m`. -/
def structNodeOf (ont : Dict Int Entry) (m : Int) : Node :=
  mkStructureNode (entryAt ont m) m (meshDSNode m) (resolutions.map (fun r => maskDSNode r m))

/-- The fixed `@id`s of the five `BaseURL` nodes. -/
def baseIds : List String :=
  ["#mesh_base_url", "#mask_base_url", "#mesh_download_url",
   "#average_template_base_url", "#ara_nissl_base_url"]

/-- The node list a successful `build_atlas` run returns, where `D` is the
list of mesh ids in first-occurrence order. -/
def atlasNodes (ont : Dict Int Entry) (D : List Int) : List Node :=
  Header "#__header__" [structNodeOf ont 997] (resolutions.map avgDSNode)
      (some (Ann.doc "Allen Mouse CCF Atlas" headerAbout)) ::
    ([mesh_base, mask_base, download_base, average_template_base, ara_nissl_base]
      ++ D.map meshDSNode
      ++ D.flatMap (fun m => resolutions.map (fun r => maskDSNode r m))
      ++ D.map (structNodeOf ont)
      ++ resolutions.map avgDSNode
      ++ resolutions.map nisslDSNode)

/-- An entry whose parent reference (2) is not a key of the one-entry
ontology below. -/
def badParentEntry : Entry :=
  { id := Cell.int 1
    parent_structure_id := Cell.int 2
    color_hex_triplet := Cell.str "FFFFFF"
    safe_name := Cell.str "n"
    acronym := Cell.str "a" }

/-- A one-entry ontology with an unresolvable parent reference. -/
def badParentOnt : Dict Int Entry := [(1, badParentEntry)]

/-! ### Claims C1, C2, C3, C5: the emitted node list -/

/-- The whole-brain root entry used in concrete witnesses. -/
def rootEntry : Entry :=
  { id := Cell.int 997
    parent_structure_id := Cell.str ""
    color_hex_triplet := Cell.str "FFFFFF"
    safe_name := Cell.str "root"
    acronym := Cell.str "root" }

/-- A one-entry ontology containing only the root. -/
def rootOnt : Dict Int Entry := [(997, rootEntry)]

/-- A child entry with parent 997 for the C4 witness. -/
def childEntry : Entry :=
  { id := Cell.int 5
    parent_structure_id := Cell.int 997
    color_hex_triplet := Cell.str "FF0000"
    safe_name := Cell.str "child"
    acronym := Cell.str "ch" }

/-- A two-entry ontology (root 997 and its child 5) for the C4 witness. -/
def linkOnt : Dict Int Entry := [(997, rootEntry), (5, childEntry)]

/-- Concrete header for the C9 witness. -/
def loaderHeader : List String := ["id", "name"]

/-- Concrete rows for the C9 witness: one integer-like cell, one not. -/
def loaderRows : List (List String) := [["3", "abc"], ["4", "007"]]

theorem dval_digitChar {d : Nat} (h : d ≤ 9) : dval (digitChar d) = d := by
  interval_cases d <;> decide

theorem digitChar_isDigit (d : Nat) : (digitChar d).isDigit = true := by
  unfold digitChar
  repeat' split
  all_goals decide

theorem lval_append_singleton (xs : List Char) (c : Char) :
    lval (xs ++ [c]) = 10 * lval xs + dval c := by
  simp [lval, List.foldl_append]

theorem lval_natDigitsAux : ∀ fuel n, n < fuel → lval (natDigitsAux fuel n) = n := by
  intro fuel
  induction fuel with
  | zero => intro n h; omega
  | succ fuel ih =>
    intro n h
    rw [natDigitsAux]
    by_cases h10 : n < 10
    · simp only [if_pos h10, lval, List.foldl]
      have : dval (digitChar n) = n := dval_digitChar (by omega)
      simpa [lval] using this
    · have hdiv : n / 10 < fuel := by omega
      have hm : n % 10 ≤ 9 := by omega
      rw [if_neg h10, lval_append_singleton, ih _ hdiv, dval_digitChar hm]
      omega

theorem lval_natDigits (n : Nat) : lval (natDigits n) = n :=
  lval_natDigitsAux (n + 1) n (Nat.lt_succ_self n)

theorem natDigits_ne_nil (n : Nat) : natDigits n ≠ [] := by
  unfold natDigits natDigitsAux
  split <;> simp

theorem mem_natDigitsAux_isDigit :
    ∀ fuel n c, c ∈ natDigitsAux fuel n → c.isDigit = true := by
  intro fuel
  induction fuel with
  | zero => intro n c h; simp [natDigitsAux] at h
  | succ fuel ih =>
    intro n c h
    rw [natDigitsAux] at h
    split at h
    · simp at h; subst h; exact digitChar_isDigit _
    · rcases List.mem_append.mp h with h' | h'
      · exact ih _ _ h'
      · simp at h'; subst h'; exact digitChar_isDigit _

theorem mem_natDigits_isDigit {n : Nat} {c : Char} (h : c ∈ natDigits n) :
    c.isDigit = true :=
  mem_natDigitsAux_isDigit _ _ _ h

theorem natStr_injective : Function.Injective natStr := by
  intro a b h
  have : (natStr a).data = (natStr b).data := by rw [h]
  have h2 : natDigits a = natDigits b := this
  have := lval_natDigits a
  rw [h2, lval_natDigits b] at this
  omega

theorem natStr_head_digit (n : Nat) :
    ∃ c cs, (natStr n).data = c :: cs ∧ c.isDigit = true := by
  rcases hd : natDigits n with _ | ⟨c, cs⟩
  · exact absurd hd (natDigits_ne_nil n)
  · exact ⟨c, cs, by simp [natStr, hd],
      mem_natDigits_isDigit (by rw [hd]; exact List.mem_cons_self _ _)⟩

theorem string_data_append (a b : String) : (a ++ b).data = a.data ++ b.data := by
  cases a; cases b; rfl

theorem string_eq_of_data (a b : String) (h : a.data = b.data) : a = b := by
  cases a; cases b; simp only at h; rw [h]

theorem intStr_injective : Function.Injective intStr := by
  intro a b h
  unfold intStr at h
  split at h <;> split at h
  · -- both negative
    have hd : ("-" ++ natStr a.natAbs).data = ("-" ++ natStr b.natAbs).data := by rw [h]
    rw [string_data_append, string_data_append] at hd
    have := List.append_cancel_left hd
    have := natStr_injective (string_eq_of_data _ _ this)
    omega
  · -- a < 0, 0 ≤ b : "-" ++ digits = digits, impossible
    exfalso
    obtain ⟨c, cs, hc, hdig⟩ := natStr_head_digit b.toNat
    have hd : ("-" ++ natStr a.natAbs).data = (natStr b.toNat).data := by rw [h]
    rw [string_data_append, hc] at hd
    have : '-' = c := by simpa using congrArg List.head? hd
    rw [← this] at hdig
    exact absurd hdig (by decide)
  · exfalso
    obtain ⟨c, cs, hc, hdig⟩ := natStr_head_digit a.toNat
    have hd : (natStr a.toNat).data = ("-" ++ natStr b.natAbs).data := by rw [h]
    rw [string_data_append, hc] at hd
    have : c = '-' := by simpa using congrArg List.head? hd
    rw [this] at hdig
    exact absurd hdig (by decide)
  · have := natStr_injective h
    omega

section DictLemmas

variable {κ α β : Type} [DecidableEq κ]

theorem mem_foldl_dedup [DecidableEq α] (l : List α) (acc : List α) (x : α) :
    x ∈ l.foldl (fun acc x => if x ∈ acc then acc else acc ++ [x]) acc ↔
      x ∈ acc ∨ x ∈ l := by
  induction l generalizing acc with
  | nil => simp
  | cons y l ih =>
    simp only [List.foldl_cons]
    rw [ih]
    by_cases h : y ∈ acc
    · simp [h]
      constructor
      · rintro (h' | h') <;> simp [h']
      · rintro (h' | h' | h')
        · simp [h']
        · subst h'; simp [h]
        · simp [h']
    · simp [h, List.mem_append, or_assoc]

theorem nodup_foldl_dedup [DecidableEq α] (l : List α) (acc : List α) (h : acc.Nodup) :
    (l.foldl (fun acc x => if x ∈ acc then acc else acc ++ [x]) acc).Nodup := by
  induction l generalizing acc with
  | nil => simpa
  | cons y l ih =>
    simp only [List.foldl_cons]
    by_cases hy : y ∈ acc
    · rw [if_pos hy]; exact ih acc h
    · rw [if_neg hy]
      exact ih _ (by simp [List.nodup_append, h, hy])

theorem mem_dedupF [DecidableEq α] (l : List α) (x : α) : x ∈ dedupF l ↔ x ∈ l := by
  rw [dedupF, mem_foldl_dedup]; simp

theorem nodup_dedupF [DecidableEq α] (l : List α) : (dedupF l).Nodup :=
  nodup_foldl_dedup l [] List.nodup_nil

theorem dlookup_nil (k : κ) : dlookup ([] : Dict κ α) k = none := rfl

theorem dlookup_cons (p : κ × α) (l : Dict κ α) (k : κ) :
    dlookup (p :: l) k = if p.1 = k then some p.2 else dlookup l k := by
  by_cases h : p.1 = k <;> simp [dlookup, List.find?, h]

theorem dlookup_mapform (g : κ → α) :
    ∀ (D : List κ) (k : κ),
      dlookup (D.map fun k => (k, g k)) k = if k ∈ D then some (g k) else none := by
  intro D
  induction D with
  | nil => intro k; simp [dlookup]
  | cons x D ih =>
    intro k
    simp only [List.map_cons, dlookup_cons]
    by_cases h : x = k
    · subst h; simp
    · rw [if_neg h, ih]
      simp [List.mem_cons, Ne.symm h]

theorem dlookup_map_keyed (f : κ → α → β) :
    ∀ (l : Dict κ α) (k : κ),
      dlookup (l.map fun p => (p.1, f p.1 p.2)) k = (dlookup l k).map (f k) := by
  intro l
  induction l with
  | nil => intro k; rfl
  | cons p l ih =>
    intro k
    obtain ⟨a, v⟩ := p
    rw [List.map_cons, dlookup_cons, dlookup_cons]
    by_cases h : a = k
    · subst h; simp
    · simp only [h, if_false]
      exact ih k

theorem dkeys_map_keyed (f : κ → α → β) (l : Dict κ α) :
    dkeys (l.map fun p => (p.1, f p.1 p.2)) = dkeys l := by
  simp [dkeys, List.map_map]

theorem dlookup_eq_none_iff (d : Dict κ α) (k : κ) :
    dlookup d k = none ↔ k ∉ dkeys d := by
  induction d with
  | nil => simp [dlookup, dkeys]
  | cons p l ih =>
    rw [dlookup_cons]
    by_cases h : p.1 = k
    · simp [h, dkeys]
    · simp [h, dkeys, ih, Ne.symm h]

theorem mem_dkeys_iff_isSome (d : Dict κ α) (k : κ) :
    k ∈ dkeys d ↔ (dlookup d k).isSome := by
  rcases h : dlookup d k with _ | v
  · simpa using (dlookup_eq_none_iff d k).mp h
  · simp only [Option.isSome_some, iff_true]
    by_contra hk
    rw [(dlookup_eq_none_iff d k).mpr hk] at h
    exact Option.noConfusion h

theorem dlookup_mem {d : Dict κ α} {k : κ} {v : α}
    (h : dlookup d k = some v) : (k, v) ∈ d := by
  unfold dlookup at h
  obtain ⟨p, hp, hsnd⟩ := Option.map_eq_some'.mp h
  have h1 : p.1 = k := by simpa using List.find?_some hp
  have h2 := List.mem_of_find?_eq_some hp
  obtain ⟨a, b⟩ := p
  simp only at h1 hsnd
  subst h1; subst hsnd
  exact h2

theorem dlookup_of_mem_nodup {d : Dict κ α} (hnd : (dkeys d).Nodup)
    {p : κ × α} (hp : p ∈ d) : dlookup d p.1 = some p.2 := by
  induction d with
  | nil => simp at hp
  | cons q l ih =>
    rw [dlookup_cons]
    rcases List.mem_cons.mp hp with h | h
    · subst h; simp
    · have hne : q.1 ≠ p.1 := by
        intro he
        have : p.1 ∈ dkeys l := List.mem_map.mpr ⟨p, h, rfl⟩
        rw [← he] at this
        exact (List.nodup_cons.mp hnd).1 this
      rw [if_neg hne]
      exact ih (List.nodup_cons.mp hnd).2 h

theorem dinsert_mapform (g : κ → α) (D : List κ) (x : κ) :
    dinsert (D.map fun k => (k, g k)) x (g x) =
      (if x ∈ D then D else D ++ [x]).map fun k => (k, g k) := by
  unfold dinsert
  by_cases hx : x ∈ D
  · have hany : (D.map fun k => (k, g k)).any (fun p => p.1 = x) = true := by
      simpa using hx
    rw [if_pos hany, if_pos hx, List.map_map]
    apply List.map_congr_left
    intro a _
    by_cases hax : a = x <;> simp [hax]
  · have hany : ¬((D.map fun k => (k, g k)).any (fun p => p.1 = x) = true) := by
      simpa using hx
    rw [if_neg hany, if_neg hx]
    simp

theorem foldl_dinsert_keyed (g : κ → α) :
    ∀ (l : List κ) (D : List κ),
      l.foldl (fun d k => dinsert d k (g k)) (D.map fun k => (k, g k)) =
        (l.foldl (fun acc x => if x ∈ acc then acc else acc ++ [x]) D).map
          fun k => (k, g k) := by
  intro l
  induction l with
  | nil => intro D; rfl
  | cons x l ih =>
    intro D
    simp only [List.foldl_cons]
    rw [dinsert_mapform, ih]

theorem dvalues_mapform (g : κ → α) (D : List κ) :
    dvalues (D.map fun k => (k, g k)) = D.map g := by
  simp [dvalues, List.map_map]

theorem any_keys (d : Dict κ α) (k : κ) :
    d.any (fun p => p.1 = k) = true ↔ k ∈ dkeys d := by
  simp [List.any_eq_true, dkeys]

theorem dlookup_mapreplace (d : Dict κ α) (k : κ) (v : α) (k' : κ) :
    dlookup (d.map fun p => if p.1 = k then (k, v) else p) k' =
      if k' = k then (dlookup d k).map (fun _ => v) else dlookup d k' := by
  induction d with
  | nil => by_cases h : k' = k <;> simp [h, dlookup]
  | cons p d ih =>
    simp only [List.map_cons, dlookup_cons]
    by_cases hp : p.1 = k
    · by_cases h : k' = k
      · subst h; simp [hp]
      · simp [hp, h, Ne.symm h, ih]
    · by_cases h : k' = k
      · subst h; simp [hp, ih]
      · simp [hp, h, ih]

theorem dlookup_dinsert_self (d : Dict κ α) (k : κ) (v : α) :
    dlookup (dinsert d k v) k = some v := by
  unfold dinsert
  by_cases ha : d.any (fun p => p.1 = k) = true
  · rw [if_pos ha, dlookup_mapreplace, if_pos rfl]
    have : k ∈ dkeys d := (any_keys d k).mp ha
    rw [mem_dkeys_iff_isSome] at this
    rcases ho : dlookup d k with _ | w
    · rw [ho] at this; exact absurd this (by simp)
    · rfl
  · rw [if_neg ha]
    unfold dlookup
    rw [List.find?_append]
    have hnone : d.find? (fun p => p.1 = k) = none := by
      rw [List.find?_eq_none]
      intro x hx hpx
      exact ha (List.any_eq_true.mpr ⟨x, hx, hpx⟩)
    rw [hnone]
    simp [List.find?]

theorem dlookup_dinsert_ne (d : Dict κ α) (k : κ) (v : α) (k' : κ) (h : k' ≠ k) :
    dlookup (dinsert d k v) k' = dlookup d k' := by
  unfold dinsert
  by_cases ha : d.any (fun p => p.1 = k) = true
  · rw [if_pos ha, dlookup_mapreplace, if_neg h]
  · rw [if_neg ha]
    unfold dlookup
    rw [List.find?_append]
    have h2 : List.find? (fun p => p.1 = k') [(k, v)] = none := by
      simp [List.find?, Ne.symm h]
    rw [h2]
    rcases hf : d.find? (fun p => p.1 = k') with _ | p <;> simp [hf]

theorem dkeys_dinsert_of_mem (d : Dict κ α) (k : κ) (v : α) (h : k ∈ dkeys d) :
    dkeys (dinsert d k v) = dkeys d := by
  unfold dinsert
  rw [if_pos ((any_keys d k).mpr h)]
  unfold dkeys
  rw [List.map_map]
  apply List.map_congr_left
  intro p _
  by_cases hp : p.1 = k <;> simp [hp]

theorem mem_dkeys_dinsert (d : Dict κ α) (k : κ) (v : α) (k' : κ) :
    k' ∈ dkeys (dinsert d k v) ↔ k' ∈ dkeys d ∨ k' = k := by
  rw [mem_dkeys_iff_isSome]
  by_cases h : k' = k
  · subst h
    rw [dlookup_dinsert_self]
    simp
  · rw [dlookup_dinsert_ne _ _ _ _ h, ← mem_dkeys_iff_isSome]
    simp [h]

theorem dkeys_mapform (g : κ → α) (D : List κ) :
    dkeys (D.map fun k => (k, g k)) = D := by
  induction D with
  | nil => rfl
  | cons x D ih => simpa [dkeys] using ih

end DictLemmas

theorem mesh_dss_eq (ids : List Int) :
    mesh_dss ids = (dedupF ids).map (fun k => (k, meshDSNode k)) :=
  foldl_dinsert_keyed meshDSNode ids []

theorem label_dss_eq (ids : List Int) :
    label_dss ids = (dedupF ids).map
      (fun k => (k, resolutions.map (fun r => (r, maskDSNode r k)))) :=
  foldl_dinsert_keyed (fun mid => resolutions.map (fun r => (r, maskDSNode r mid))) ids []

theorem dlookup_dedupF_mapform {α : Type} {g : Int → α} {ids : List Int} {m : Int}
    (hm : m ∈ ids) :
    dlookup ((dedupF ids).map fun k => (k, g k)) m = some (g m) := by
  rw [dlookup_mapform, if_pos ((mem_dedupF ids m).mpr hm)]

theorem dlookup_entryAt {ont : Dict Int Entry} {m : Int} (h : (dlookup ont m).isSome) :
    dlookup ont m = some (entryAt ont m) := by
  rcases ho : dlookup ont m with _ | e
  · rw [ho] at h; exact absurd h (by simp)
  · simp [entryAt, ho]

theorem build_structures_go (ont : Dict Int Entry) (ids : List Int)
    (hmem : ∀ m ∈ ids, (dlookup ont m).isSome) :
    ∀ (l : List Int), (∀ m ∈ l, m ∈ ids) → ∀ (D : List Int),
      build_structures ont (mesh_dss ids) (label_dss ids) l
          (D.map fun k => (k, structNodeOf ont k)) =
        some ((l.foldl (fun acc x => if x ∈ acc then acc else acc ++ [x]) D).map
          fun k => (k, structNodeOf ont k)) := by
  intro l
  induction l with
  | nil => intro _ D; rfl
  | cons x l ih =>
    intro hl D
    have hx : x ∈ ids := hl x (List.mem_cons_self _ _)
    have h1 : dlookup ont x = some (entryAt ont x) := dlookup_entryAt (hmem x hx)
    have h2 : dlookup (mesh_dss ids) x = some (meshDSNode x) := by
      rw [mesh_dss_eq]; exact dlookup_dedupF_mapform hx
    have h3 : dlookup (label_dss ids) x =
        some (resolutions.map (fun r => (r, maskDSNode r x))) := by
      rw [label_dss_eq]; exact dlookup_dedupF_mapform hx
    have hnode : mkStructureNode (entryAt ont x) x (meshDSNode x)
        (dvalues (resolutions.map (fun r => (r, maskDSNode r x)))) = structNodeOf ont x := by
      rw [structNodeOf, dvalues_mapform]
    simp only [build_structures, h1, h2, h3, List.foldl_cons]
    rw [hnode, dinsert_mapform]
    exact ih (fun m hm => hl m (List.mem_cons_of_mem _ hm)) _

theorem build_structures_eq (ont : Dict Int Entry) (ids : List Int)
    (hmem : ∀ m ∈ ids, (dlookup ont m).isSome) :
    build_structures ont (mesh_dss ids) (label_dss ids) ids [] =
      some ((dedupF ids).map fun k => (k, structNodeOf ont k)) :=
  build_structures_go ont ids hmem ids (fun _ h => h) []

theorem build_structures_some_mem (ont : Dict Int Entry) (md : Dict Int Node)
    (ld : Dict Int (Dict Int Node)) :
    ∀ (l : List Int) (acc d : Dict Int Node),
      build_structures ont md ld l acc = some d →
      ∀ m ∈ l, (dlookup ont m).isSome := by
  intro l
  induction l with
  | nil => intro acc d _ m hm; simp at hm
  | cons x l ih =>
    intro acc d h m hm
    cases h1 : dlookup ont x with
    | none => rw [build_structures, h1] at h; exact absurd h (by simp)
    | some e =>
      cases h2 : dlookup md x with
      | none => rw [build_structures, h1, h2] at h; exact absurd h (by simp)
      | some mds =>
        cases h3 : dlookup ld x with
        | none => rw [build_structures, h1, h2, h3] at h; exact absurd h (by simp)
        | some lds =>
          rcases List.mem_cons.mp hm with rfl | hm2
          · rw [h1]; rfl
          · rw [build_structures, h1, h2, h3] at h
            exact ih _ _ h m hm2

theorem flatMap_dvalues_mapform (D : List Int) :
    ((D.map (fun k => resolutions.map (fun r => (r, maskDSNode r k)))).flatMap dvalues) =
      D.flatMap (fun m => resolutions.map (fun r => maskDSNode r m)) := by
  induction D with
  | nil => rfl
  | cons x D ih => simp [ih, dvalues_mapform]

/-- On inputs whose mesh ids all resolve and include the root 997,
`build_atlas` succeeds and returns the canonical node list. -/
theorem build_atlas_eq (ont : Dict Int Entry) (ids : List Int)
    (hmem : ∀ m ∈ ids, (dlookup ont m).isSome) (h997 : (997 : Int) ∈ ids) :
    build_atlas ont ids = some (atlasNodes ont (dedupF ids)) := by
  have hlk : dlookup ((dedupF ids).map fun k => (k, structNodeOf ont k)) 997 =
      some (structNodeOf ont 997) := dlookup_dedupF_mapform h997
  simp only [build_atlas, build_structures_eq ont ids hmem, hlk]
  rw [atlasNodes]
  simp only [mesh_dss_eq, label_dss_eq, dvalues_mapform, flatMap_dvalues_mapform]

theorem meshDSNode_id (m : Int) : (meshDSNode m).id = meshId m := rfl

theorem maskDSNode_id (r m : Int) : (maskDSNode r m).id = maskId r m := rfl

theorem structNodeOf_id (ont : Dict Int Entry) (m : Int) :
    (structNodeOf ont m).id = structId m := rfl

theorem avgDSNode_id (r : Int) : (avgDSNode r).id = avgId r := rfl

theorem nisslDSNode_id (r : Int) : (nisslDSNode r).id = nisslId r := rfl

/-- The `@id`s of the canonical node list. -/
theorem atlas_ids (ont : Dict Int Entry) (D : List Int) :
    (atlasNodes ont D).map Node.id =
      "#__header__" :: (baseIds
        ++ D.map meshId
        ++ D.flatMap (fun m => resolutions.map (fun r => maskId r m))
        ++ D.map structId
        ++ resolutions.map avgId
        ++ resolutions.map nisslId) := by
  simp only [atlasNodes, List.map_cons, List.map_append, List.map_map, List.map_flatMap]
  rfl

/-! ### Distinctness of generated identifiers

Every `@id` emitted by `build_atlas` is either a fixed string or
`p ++ intStr n` for a family prefix `p`.  Two such ids differ whenever their
prefixes are incomparable (neither is a list-prefix of the other). -/

theorem famS_inj {p : String} {a b : Int} (h : p ++ intStr a = p ++ intStr b) : a = b := by
  have hd : (p ++ intStr a).data = (p ++ intStr b).data := by rw [h]
  rw [string_data_append, string_data_append] at hd
  exact intStr_injective (string_eq_of_data _ _ (List.append_cancel_left hd))

theorem famS_ne_famS {p q : String} (h₁ : ¬p.data <+: q.data) (h₂ : ¬q.data <+: p.data)
    (a b : Int) : p ++ intStr a ≠ q ++ intStr b := by
  intro h
  have hd : (p ++ intStr a).data = (q ++ intStr b).data := by rw [h]
  rw [string_data_append, string_data_append] at hd
  rcases List.append_eq_append_iff.mp hd with ⟨a', ha, _⟩ | ⟨c', hc, _⟩
  · exact h₁ ⟨a', ha.symm⟩
  · exact h₂ ⟨c', hc.symm⟩

theorem famS_ne_str {p f : String} (h : ¬p.data <+: f.data) (m : Int) :
    p ++ intStr m ≠ f := by
  intro he
  have hd : (p ++ intStr m).data = f.data := by rw [he]
  rw [string_data_append] at hd
  exact h ⟨(intStr m).data, hd⟩

theorem famS_notin_strings {p : String} {l : List String}
    (h : ∀ f ∈ l, ¬p.data <+: f.data) (m : Int) : (p ++ intStr m) ∉ l :=
  fun hm => famS_ne_str (h _ hm) m rfl

theorem meshId_injective : Function.Injective meshId := fun _ _ h => famS_inj h

theorem structId_injective : Function.Injective structId := fun _ _ h => famS_inj h

theorem meshId_ne_structId (a b : Int) : meshId a ≠ structId b :=
  famS_ne_famS (by decide) (by decide) a b

theorem meshId_ne_maskId {r : Int} (hr : r ∈ resolutions) (a b : Int) :
    meshId a ≠ maskId r b := by
  fin_cases hr <;> exact famS_ne_famS (by decide) (by decide) a b

theorem structId_ne_maskId {r : Int} (hr : r ∈ resolutions) (a b : Int) :
    structId a ≠ maskId r b := by
  fin_cases hr <;> exact famS_ne_famS (by decide) (by decide) a b

theorem maskId_eq_iff {r r' : Int} (hr : r ∈ resolutions) (hr' : r' ∈ resolutions)
    (m m' : Int) : maskId r m = maskId r' m' ↔ (r = r' ∧ m = m') := by
  constructor
  · intro h
    fin_cases hr <;> fin_cases hr' <;>
      first
        | exact ⟨rfl, famS_inj h⟩
        | exact absurd h (famS_ne_famS (by decide) (by decide) _ _)
  · rintro ⟨rfl, rfl⟩; rfl

theorem meshId_notin_fixed (m : Int) :
    meshId m ∉ baseIds ∧ meshId m ∉ resolutions.map avgId ∧
      meshId m ∉ resolutions.map nisslId ∧ meshId m ≠ "#__header__" :=
  ⟨famS_notin_strings (by decide) m, famS_notin_strings (by decide) m,
    famS_notin_strings (by decide) m, famS_ne_str (by decide) m⟩

theorem structId_notin_fixed (m : Int) :
    structId m ∉ baseIds ∧ structId m ∉ resolutions.map avgId ∧
      structId m ∉ resolutions.map nisslId ∧ structId m ≠ "#__header__" :=
  ⟨famS_notin_strings (by decide) m, famS_notin_strings (by decide) m,
    famS_notin_strings (by decide) m, famS_ne_str (by decide) m⟩

theorem maskId_notin_fixed {r : Int} (hr : r ∈ resolutions) (m : Int) :
    maskId r m ∉ baseIds ∧ maskId r m ∉ resolutions.map avgId ∧
      maskId r m ∉ resolutions.map nisslId ∧ maskId r m ≠ "#__header__" := by
  fin_cases hr <;>
    exact ⟨famS_notin_strings (by decide) m, famS_notin_strings (by decide) m,
      famS_notin_strings (by decide) m, famS_ne_str (by decide) m⟩

theorem disjoint_of_forall_ne {l₁ l₂ : List String} (h : ∀ a ∈ l₁, ∀ b ∈ l₂, a ≠ b) :
    l₁.Disjoint l₂ :=
  fun a ha hb => h a ha a hb rfl

theorem disjoint_fixed_fam {l : List String} {f : Int → String} {D : List Int}
    (h : ∀ m : Int, f m ∉ l) : l.Disjoint (D.map f) := by
  intro a ha hb
  obtain ⟨m, _, hm⟩ := List.mem_map.mp hb
  rw [← hm] at ha
  exact h m ha

theorem disjoint_fixed_masks {l : List String} {D : List Int}
    (h : ∀ r : Int, r ∈ resolutions → ∀ m : Int, maskId r m ∉ l) :
    l.Disjoint (D.flatMap (fun m => resolutions.map (fun r => maskId r m))) := by
  intro a ha hb
  obtain ⟨m, _, hmm⟩ := List.mem_flatMap.mp hb
  obtain ⟨r, hr, hx⟩ := List.mem_map.mp hmm
  rw [← hx] at ha
  exact h r hr m ha

theorem disjoint_fam_fam {f g : Int → String} {D E : List Int}
    (h : ∀ a b : Int, f a ≠ g b) : (D.map f).Disjoint (E.map g) := by
  intro x hx hy
  obtain ⟨a, _, ha⟩ := List.mem_map.mp hx
  obtain ⟨b, _, hb⟩ := List.mem_map.mp hy
  rw [← ha] at hb
  exact h a b hb.symm

theorem disjoint_fam_masks {f : Int → String} {D E : List Int}
    (h : ∀ a r : Int, r ∈ resolutions → ∀ b : Int, f a ≠ maskId r b) :
    (D.map f).Disjoint (E.flatMap (fun m => resolutions.map (fun r => maskId r m))) := by
  intro x hx hy
  obtain ⟨a, _, ha⟩ := List.mem_map.mp hx
  obtain ⟨b, _, hbm⟩ := List.mem_flatMap.mp hy
  obtain ⟨r, hr, hb⟩ := List.mem_map.mp hbm
  rw [← ha] at hb
  exact h a r hr b hb.symm

/-- The mask-id block is duplicate free for a duplicate-free id list. -/
theorem nodup_mask_block {D : List Int} (hD : D.Nodup) :
    (D.flatMap (fun m => resolutions.map (fun r => maskId r m))).Nodup := by
  rw [List.nodup_flatMap]
  constructor
  · intro m _
    refine (List.nodup_map_iff_inj_on (by decide)).mpr ?_
    intro r hr r' hr' h
    exact ((maskId_eq_iff hr hr' m m).mp h).1
  · refine hD.imp ?_
    intro a b hab x hxa hxb
    obtain ⟨r, hr, hx⟩ := List.mem_map.mp hxa
    obtain ⟨r', hr', hx'⟩ := List.mem_map.mp hxb
    rw [← hx] at hx'
    exact hab ((maskId_eq_iff hr' hr b a).mp hx').2.symm

/-- All `@id`s in the canonical node list are pairwise distinct when the
mesh-id list is duplicate free. -/
theorem atlas_ids_nodup (ont : Dict Int Entry) (D : List Int) (hD : D.Nodup) :
    ((atlasNodes ont D).map Node.id).Nodup := by
  rw [atlas_ids]
  have hM : (D.map meshId).Nodup := hD.map meshId_injective
  have hS : (D.map structId).Nodup := hD.map structId_injective
  have hK := nodup_mask_block hD
  have hBM : (baseIds ++ D.map meshId).Nodup :=
    List.nodup_append.mpr ⟨by decide, hM,
      disjoint_fixed_fam (fun m => (meshId_notin_fixed m).1)⟩
  have hBMK := List.nodup_append.mpr ⟨hBM, hK,
    List.disjoint_append_left.mpr
      ⟨disjoint_fixed_masks (fun r hr m => (maskId_notin_fixed hr m).1),
       disjoint_fam_masks (fun a r hr b => meshId_ne_maskId hr a b)⟩⟩
  have hBMKS := List.nodup_append.mpr ⟨hBMK, hS,
    List.disjoint_append_left.mpr
      ⟨List.disjoint_append_left.mpr
        ⟨disjoint_fixed_fam (fun m => (structId_notin_fixed m).1),
         disjoint_fam_fam meshId_ne_structId⟩,
       (disjoint_fam_masks (fun a r hr b => structId_ne_maskId hr a b)).symm⟩⟩
  have hBMKSA := List.nodup_append.mpr ⟨hBMKS, by decide,
    List.disjoint_append_left.mpr
      ⟨List.disjoint_append_left.mpr
        ⟨List.disjoint_append_left.mpr
          ⟨disjoint_of_forall_ne (by decide),
           (disjoint_fixed_fam (fun m => (meshId_notin_fixed m).2.1)).symm⟩,
         (disjoint_fixed_masks (fun r hr m => (maskId_notin_fixed hr m).2.1)).symm⟩,
       (disjoint_fixed_fam (fun m => (structId_notin_fixed m).2.1)).symm⟩⟩
  have hAll := List.nodup_append.mpr ⟨hBMKSA, by decide,
    List.disjoint_append_left.mpr
      ⟨List.disjoint_append_left.mpr
        ⟨List.disjoint_append_left.mpr
          ⟨List.disjoint_append_left.mpr
            ⟨disjoint_of_forall_ne (by decide),
             (disjoint_fixed_fam (fun m => (meshId_notin_fixed m).2.2.1)).symm⟩,
           (disjoint_fixed_masks (fun r hr m => (maskId_notin_fixed hr m).2.2.1)).symm⟩,
         (disjoint_fixed_fam (fun m => (structId_notin_fixed m).2.2.1)).symm⟩,
       disjoint_of_forall_ne (by decide)⟩⟩
  rw [List.nodup_cons]
  refine ⟨?_, hAll⟩
  simp only [List.mem_append, not_or]
  refine ⟨⟨⟨⟨⟨by decide, ?_⟩, ?_⟩, ?_⟩, by decide⟩, by decide⟩
  · intro h
    obtain ⟨m, _, hm⟩ := List.mem_map.mp h
    exact (meshId_notin_fixed m).2.2.2 hm
  · intro h
    obtain ⟨m, _, hmm⟩ := List.mem_flatMap.mp h
    obtain ⟨r, hr, hx⟩ := List.mem_map.mp hmm
    exact (maskId_notin_fixed hr m).2.2.2 hx
  · intro h
    obtain ⟨m, _, hm⟩ := List.mem_map.mp h
    exact (structId_notin_fixed m).2.2.2 hm

/-! ### Claims C8 and C10: fatal lookup failures -/

theorem pylookup_some {st : Dict Int Entry} {c : Cell} {q : Int} {pe : Entry}
    (h : pylookup st c = some (q, pe)) : c = Cell.int q ∧ dlookup st q = some pe := by
  cases c with
  | int n =>
    simp only [pylookup] at h
    obtain ⟨e', he', hpair⟩ := Option.map_eq_some'.mp h
    injection hpair with h1 h2
    subst h1; subst h2
    exact ⟨rfl, he'⟩
  | str s => exact absurd h (by simp [pylookup])

theorem pylookup_none_preserved {st st' : Dict Int Entry} (hkeys : dkeys st' = dkeys st)
    (c : Cell) (h : pylookup st c = none) : pylookup st' c = none := by
  cases c with
  | str s => rfl
  | int n =>
    simp only [pylookup, Option.map_eq_none'] at h ⊢
    rw [dlookup_eq_none_iff] at h ⊢
    rw [hkeys]
    exact h

/-- If some still-unprocessed entry has a non-empty parent reference that
does not resolve, the `find_children` loop fails. -/
theorem fc_go_none :
    ∀ (ks : List Int) (st : Dict Int Entry) (k : Int) (e : Entry),
      k ∈ ks → dlookup st k = some e → e.parent_structure_id ≠ Cell.str "" →
      pylookup st e.parent_structure_id = none → fc_go st ks = none := by
  intro ks
  induction ks with
  | nil => intro st k e hk _ _ _; simp at hk
  | cons x ks ih =>
    intro st k e hk hke hne hbad
    cases hx : dlookup st x with
    | none => simp [fc_go, hx]
    | some ex =>
      by_cases hpe : ex.parent_structure_id = Cell.str ""
      · have hk2 : k ∈ ks := by
          rcases List.mem_cons.mp hk with rfl | h
          · rw [hx] at hke; injection hke with he; subst he; exact absurd hpe hne
          · exact h
        simp only [fc_go, hx, if_pos hpe]
        exact ih st k e hk2 hke hne hbad
      · cases hpl : pylookup st ex.parent_structure_id with
        | none => simp [fc_go, hx, if_neg hpe, hpl]
        | some qpe =>
          obtain ⟨q, pe⟩ := qpe
          obtain ⟨hcq, hq⟩ := pylookup_some hpl
          have hqmem : q ∈ dkeys st := by
            rw [mem_dkeys_iff_isSome, hq]; rfl
          have hk2 : k ∈ ks := by
            rcases List.mem_cons.mp hk with rfl | h
            · rw [hx] at hke; injection hke with he; subst he
              rw [hpl] at hbad; exact Option.noConfusion hbad
            · exact h
          simp only [fc_go, hx, if_neg hpe, hpl]
          set pe2 : Entry :=
            { pe with child_structure_ids := some ((pe.child_structure_ids.getD []) ++ [ex.id]) }
            with hpe2
          have hkeys : dkeys (dinsert st q pe2) = dkeys st :=
            dkeys_dinsert_of_mem st q pe2 hqmem
          by_cases hkq : k = q
          · subst hkq
            have hlk : dlookup (dinsert st k pe2) k = some pe2 := dlookup_dinsert_self st k pe2
            have hpar : pe2.parent_structure_id = e.parent_structure_id := by
              rw [hq] at hke
              injection hke with he
              rw [hpe2, ← he]
            apply ih (dinsert st k pe2) k pe2 hk2 hlk
            · rw [hpar]; exact hne
            · rw [hpar]; exact pylookup_none_preserved hkeys _ hbad
          · have hlk : dlookup (dinsert st q pe2) k = some e := by
              rw [dlookup_dinsert_ne st q pe2 k hkq]; exact hke
            exact ih (dinsert st q pe2) k e hk2 hlk hne
              (pylookup_none_preserved hkeys _ hbad)

theorem build_structures_none (ont : Dict Int Entry) (md : Dict Int Node)
    (ld : Dict Int (Dict Int Node)) :
    ∀ (l : List Int) (acc : Dict Int Node) (m : Int),
      m ∈ l → dlookup ont m = none → build_structures ont md ld l acc = none := by
  intro l
  induction l with
  | nil => intro acc m hm; simp at hm
  | cons x l ih =>
    intro acc m hm hmiss
    rcases List.mem_cons.mp hm with rfl | hm2
    · simp [build_structures, hmiss]
    · cases h1 : dlookup ont x with
      | none => simp [build_structures, h1]
      | some e =>
        cases h2 : dlookup md x with
        | none => simp [build_structures, h1, h2]
        | some mds =>
          cases h3 : dlookup ld x with
          | none => simp [build_structures, h1, h2, h3]
          | some lds =>
            simp only [build_structures, h1, h2, h3]
            exact ih _ m hm2 hmiss

theorem build_structures_keys (ont : Dict Int Entry) (md : Dict Int Node)
    (ld : Dict Int (Dict Int Node)) :
    ∀ (l : List Int) (acc d : Dict Int Node),
      build_structures ont md ld l acc = some d →
      ∀ k, k ∈ dkeys d → k ∈ dkeys acc ∨ k ∈ l := by
  intro l
  induction l with
  | nil =>
    intro acc d h k hk
    simp only [build_structures] at h
    injection h with h
    subst h
    exact Or.inl hk
  | cons x l ih =>
    intro acc d h k hk
    cases h1 : dlookup ont x with
    | none => rw [build_structures, h1] at h; exact absurd h (by simp)
    | some e =>
      cases h2 : dlookup md x with
      | none => rw [build_structures, h1, h2] at h; exact absurd h (by simp)
      | some mds =>
        cases h3 : dlookup ld x with
        | none => rw [build_structures, h1, h2, h3] at h; exact absurd h (by simp)
        | some lds =>
          rw [build_structures, h1, h2, h3] at h
          rcases ih _ _ h k hk with hacc | hl
          · rcases (mem_dkeys_dinsert _ _ _ _).mp hacc with h' | h'
            · exact Or.inl h'
            · exact Or.inr (by simp [h'])
          · exact Or.inr (List.mem_cons_of_mem _ hl)

/-- A successful `build_atlas` run determines the success conditions and the
canonical result. -/
theorem build_atlas_some_inv {ont : Dict Int Entry} {ids : List Int} {ns : List Node}
    (h : build_atlas ont ids = some ns) :
    (∀ m ∈ ids, (dlookup ont m).isSome) ∧ (997 : Int) ∈ ids ∧
      ns = atlasNodes ont (dedupF ids) := by
  have hmem : ∀ m ∈ ids, (dlookup ont m).isSome := by
    cases hs : build_structures ont (mesh_dss ids) (label_dss ids) ids [] with
    | none =>
      simp only [build_atlas, hs] at h
      exact absurd h (by simp)
    | some str => exact build_structures_some_mem _ _ _ ids [] str hs
  have h997 : (997 : Int) ∈ ids := by
    cases hs : build_structures ont (mesh_dss ids) (label_dss ids) ids [] with
    | none =>
      simp only [build_atlas, hs] at h
      exact absurd h (by simp)
    | some str =>
      cases hl : dlookup str 997 with
      | none =>
        simp only [build_atlas, hs, hl] at h
        exact absurd h (by simp)
      | some root =>
        have hmem2 : 997 ∈ dkeys str := by rw [mem_dkeys_iff_isSome, hl]; rfl
        rcases build_structures_keys ont _ _ ids [] str hs 997 hmem2 with h' | h'
        · simp [dkeys] at h'
        · exact h'
  have heq := build_atlas_eq ont ids hmem h997
  rw [heq] at h
  injection h with h
  exact ⟨hmem, h997, h.symm⟩

/-- C10: `build_atlas` succeeds only when the whole-brain root id 997 is one
of the mesh ids; without it the final `structures[997]` lookup for the
`Header` fails and the whole call aborts. -/
theorem C10_root_mesh_required (ont : Dict Int Entry) (ids : List Int)
    (h997 : (997 : Int) ∉ ids) : build_atlas ont ids = none := by
  unfold build_atlas
  cases hs : build_structures ont (mesh_dss ids) (label_dss ids) ids [] with
  | none => simp [hs]
  | some structures =>
    have hlk : dlookup structures 997 = none := by
      rw [dlookup_eq_none_iff]
      intro hmem
      rcases build_structures_keys ont _ _ ids [] structures hs 997 hmem with h | h
      · simp [dkeys] at h
      · exact h997 h
    simp [hs, hlk]

/-- Witness for C10 at a concrete input. -/
theorem C10_root_mesh_required_witness :
    build_atlas [] [1] = none :=
  C10_root_mesh_required [] [1] (by decide)

/-- C8: two independent fatal-lookup conditionals.  First, if some entry of
an ontology has a non-empty `parent_structure_id` that does not resolve to a
key, `find_children` fails with an uncaught lookup error.  Second (for any
ontology, with no assumption about its parent references), if some mesh id
passed to `build_atlas` is not a key of the ontology, `build_atlas` fails
likewise rather than skipping the id. -/
theorem C8_unresolved_reference_failures (ont ont2 : Dict Int Entry) (k : Int)
    (e : Entry) (ids : List Int) (m : Int) :
    (dlookup ont k = some e → e.parent_structure_id ≠ Cell.str "" →
      pylookup ont e.parent_structure_id = none → find_children ont = none) ∧
    (m ∈ ids → dlookup ont2 m = none → build_atlas ont2 ids = none) := by
  constructor
  · intro hk hne hbad
    unfold find_children
    have hkmem : k ∈ dkeys ont := by
      rw [mem_dkeys_iff_isSome, hk]; rfl
    exact fc_go_none (dkeys ont) ont k e hkmem hk hne hbad
  · intro hm hmiss
    have hb := build_structures_none ont2 (mesh_dss ids) (label_dss ids) ids [] m hm hmiss
    unfold build_atlas
    simp [hb]

/-- Witness for C8, discharging the two conditionals independently: entry 1
of `badParentOnt` has the unresolvable parent 2, while the `build_atlas`
part uses the well-formed one-entry ontology `rootOnt` (whose only parent
reference is empty) with the missing mesh id 3. -/
theorem C8_unresolved_reference_failures_witness :
    find_children badParentOnt = none ∧ build_atlas rootOnt [997, 3] = none :=
  ⟨(C8_unresolved_reference_failures badParentOnt rootOnt 1 badParentEntry
      [997, 3] 3).1 (by decide) (by decide) (by decide),
   (C8_unresolved_reference_failures badParentOnt rootOnt 1 badParentEntry
      [997, 3] 3).2 (by decide) (by decide)⟩

/-! ### Claim C6: mesh discovery -/

theorem digit_ne_of (c : Char) (h : c.isDigit = true) (d : Char) (hd : d.isDigit = false) :
    c ≠ d := by
  intro he
  rw [he, hd] at h
  exact Bool.noConfusion h

theorem digit_not_ws {c : Char} (h : c.isDigit = true) : c.isWhitespace = false := by
  rcases Bool.eq_false_or_eq_true c.isWhitespace with hw | hw
  · exfalso
    have hc : ((c = ' ' ∨ c = '\t') ∨ c = '\r') ∨ c = '\n' := by
      simpa [Char.isWhitespace] using hw
    have hc : c = ' ' ∨ c = '\t' ∨ c = '\r' ∨ c = '\n' := by tauto
    rcases hc with rfl | rfl | rfl | rfl <;> exact absurd h (by decide)
  · exact hw

theorem dropWhile_ws_of_digits (l : List Char) (h : ∀ c ∈ l, c.isDigit = true) :
    l.dropWhile Char.isWhitespace = l := by
  cases l with
  | nil => rfl
  | cons c cs =>
    rw [List.dropWhile_cons, digit_not_ws (h c (List.mem_cons_self _ _))]
    simp

theorem pyTrim_digits {ds : List Char} (h : ∀ c ∈ ds, c.isDigit = true) :
    pyTrim ds = ds := by
  unfold pyTrim
  rw [dropWhile_ws_of_digits ds h,
    dropWhile_ws_of_digits _ (fun c hc => h c (List.mem_reverse.mp hc)),
    List.reverse_reverse]

theorem pyDigitsTail_digits (cs : List Char) (h : ∀ c ∈ cs, c.isDigit = true) :
    pyDigitsTail cs = true := by
  induction cs with
  | nil => rfl
  | cons c cs ih =>
    have hc : c ≠ '_' := digit_ne_of c (h c (List.mem_cons_self _ _)) '_' (by decide)
    rw [pyDigitsTail.eq_def]
    simp only
    rw [if_neg hc, h c (List.mem_cons_self _ _),
      ih (fun x hx => h x (List.mem_cons_of_mem _ hx))]
    rfl

theorem pyIntCore_digits (c : Char) (cs : List Char) (hd : ∀ x ∈ c :: cs, x.isDigit = true) :
    pyIntCore (c :: cs) = some (Int.ofNat (lval (c :: cs))) := by
  have hOK : pyDigitsOK (c :: cs) = true := by
    simp only [pyDigitsOK]
    rw [hd c (List.mem_cons_self _ _),
      pyDigitsTail_digits cs (fun x hx => hd x (List.mem_cons_of_mem _ hx))]
    rfl
  have hfilter : (c :: cs).filter (fun x => x ≠ '_') = c :: cs :=
    List.filter_eq_self.mpr (fun x hx => by
      simpa using digit_ne_of x (hd x hx) '_' (by decide))
  rw [pyIntCore.eq_def]
  split
  · rename_i rest heq
    injection heq with h1 _
    exact absurd h1 (digit_ne_of c (hd c (List.mem_cons_self _ _)) '+' (by decide))
  · rename_i rest heq
    injection heq with h1 _
    exact absurd h1 (digit_ne_of c (hd c (List.mem_cons_self _ _)) '-' (by decide))
  · rw [if_pos hOK]
    unfold digitsValue
    rw [hfilter]

theorem pyInt_digits (ds : List Char) (hne : ds ≠ []) (h : ∀ c ∈ ds, c.isDigit = true) :
    pyInt ⟨ds⟩ = some (Int.ofNat (lval ds)) := by
  obtain ⟨c, cs, rfl⟩ := List.exists_cons_of_ne_nil hne
  show pyIntCore (pyTrim (c :: cs)) = _
  rw [pyTrim_digits h]
  exact pyIntCore_digits c cs h

theorem replObj_cons_ne (c : Char) (cs : List Char) (h : c ≠ '.') :
    replObj (c :: cs) = c :: replObj cs := by
  rw [replObj.eq_def]
  split
  · rename_i rest heq
    injection heq with h1 h2
    exact absurd h1 h
  · rename_i c2 cs2 _ heq
    injection heq with h1 h2
    subst h1; subst h2
    rfl
  · rename_i heq
    simp at heq

theorem replObj_digits (ds : List Char) (h : ∀ c ∈ ds, c.isDigit = true) :
    replObj (ds ++ ['.', 'o', 'b', 'j']) = ds := by
  induction ds with
  | nil => rfl
  | cons c ds ih =>
    have hc : c ≠ '.' := digit_ne_of c (h c (List.mem_cons_self _ _)) '.' (by decide)
    rw [List.cons_append, replObj_cons_ne c _ hc,
      ih (fun x hx => h x (List.mem_cons_of_mem _ hx))]

theorem matchAt_shape {cs m : List Char} (h : matchAt cs = some m) :
    ∃ ds, ds ≠ [] ∧ (∀ c ∈ ds, c.isDigit = true) ∧ m = ds ++ ['.', 'o', 'b', 'j'] := by
  simp only [matchAt] at h
  split at h
  · exact absurd h (by simp)
  · split at h
    · rename_i h1 _
      refine ⟨cs.takeWhile Char.isDigit, ?_, ?_, ?_⟩
      · simpa [List.isEmpty_iff] using h1
      · intro c hc; exact List.mem_takeWhile_imp hc
      · injection h with h'; exact h'.symm
    · exact absurd h (by simp)

theorem lineMatch_shape : ∀ {cs m : List Char}, lineMatch cs = some m →
    ∃ ds, ds ≠ [] ∧ (∀ c ∈ ds, c.isDigit = true) ∧ m = ds ++ ['.', 'o', 'b', 'j'] := by
  intro cs
  induction cs with
  | nil => intro m h; simp [lineMatch] at h
  | cons c cs ih =>
    intro m h
    rw [lineMatch] at h
    cases hm : matchAt (c :: cs) with
    | some m2 =>
      rw [hm] at h
      injection h with h2
      subst h2
      exact matchAt_shape hm
    | none =>
      rw [hm] at h
      exact ih h

theorem lineMatch_leftmost : ∀ {cs m : List Char}, lineMatch cs = some m →
    ∃ i, matchAt (cs.drop i) = some m ∧ ∀ j < i, matchAt (cs.drop j) = none := by
  intro cs
  induction cs with
  | nil => intro m h; simp [lineMatch] at h
  | cons c cs ih =>
    intro m h
    rw [lineMatch] at h
    cases hm : matchAt (c :: cs) with
    | some m2 =>
      rw [hm] at h
      injection h with h2
      subst h2
      exact ⟨0, hm, fun j hj => absurd hj (by omega)⟩
    | none =>
      rw [hm] at h
      obtain ⟨i, hi, hj⟩ := ih h
      refine ⟨i + 1, by simpa using hi, ?_⟩
      intro j hj2
      cases j with
      | zero => simpa using hm
      | succ j2 => simpa using hj j2 (by omega)

theorem get_mesh_names_foldl (lines : List String) :
    ∀ acc : List String,
      lines.foldl (fun meshes line =>
        match extractMesh line with
        | none => meshes
        | some m => if m ∈ meshes then meshes else meshes ++ [m]) acc =
      (lines.filterMap extractMesh).foldl
        (fun acc x => if x ∈ acc then acc else acc ++ [x]) acc := by
  induction lines with
  | nil => intro acc; rfl
  | cons line lines ih =>
    intro acc
    simp only [List.foldl_cons, List.filterMap_cons]
    cases hx : extractMesh line with
    | none => exact ih acc
    | some m =>
      simp only [List.foldl_cons]
      exact ih _

theorem get_mesh_names_eq (lines : List String) :
    get_mesh_names lines = dedupF (lines.filterMap extractMesh) := by
  unfold get_mesh_names dedupF
  exact get_mesh_names_foldl lines []

theorem mem_get_mesh_names_shape {lines : List String} {m : String}
    (hm : m ∈ get_mesh_names lines) :
    ∃ ds, ds ≠ [] ∧ (∀ c ∈ ds, c.isDigit = true) ∧ m.data = ds ++ ['.', 'o', 'b', 'j'] := by
  rw [get_mesh_names_eq, mem_dedupF] at hm
  obtain ⟨line, _, hline⟩ := List.mem_filterMap.mp hm
  unfold extractMesh at hline
  split at hline
  · obtain ⟨md, hmd, hmk⟩ := Option.map_eq_some'.mp hline
    obtain ⟨ds, h1, h2, h3⟩ := lineMatch_shape hmd
    exact ⟨ds, h1, h2, by rw [← hmk, h3]⟩
  · exact absurd hline (by simp)

theorem mapM_option_eq_some {α β : Type} (f : α → Option β) (g : α → β) :
    ∀ l : List α, (∀ x ∈ l, f x = some (g x)) → l.mapM f = some (l.map g) := by
  intro l
  induction l with
  | nil => intro _; rfl
  | cons x l ih =>
    intro h
    rw [List.mapM_cons, h x (List.mem_cons_self _ _),
      ih (fun y hy => h y (List.mem_cons_of_mem _ hy))]
    rfl

/-- C6 as stated is false: deduplication happens on filenames, not on the
integer ids, so two filenames denoting the same integer (here `7.obj` and
`07.obj`) both survive and the id 7 appears twice in the result. -/
theorem C6_mesh_discovery_counterexample :
    get_mesh_ids ["7.obj", "07.obj"] = some [7, 7] ∧
    ¬(([7, 7] : List Int).Nodup) := by
  constructor
  · rfl
  · decide

/-- C6 amended: mesh discovery extracts, from each line containing `.obj`,
the first digits-then-`.obj` substring, skips non-matching lines, dedups the
matched *filenames* via set semantics, and converts each surviving filename
to its integer id; the integer ids themselves may repeat. -/
theorem C6_mesh_discovery_amended (lines : List String) :
    get_mesh_names lines = dedupF (lines.filterMap extractMesh) ∧
    (get_mesh_names lines).Nodup ∧
    (∀ m ∈ get_mesh_names lines, ∃ ds, ds ≠ [] ∧ (∀ c ∈ ds, c.isDigit = true) ∧
      m.data = ds ++ ['.', 'o', 'b', 'j']) ∧
    get_mesh_ids lines =
      some ((get_mesh_names lines).map (fun m => Int.ofNat (lval (replObj m.data)))) ∧
    (∀ line m, extractMesh line = some m →
      containsObj line.data = true ∧
      ∃ i, matchAt (line.data.drop i) = some m.data ∧
        ∀ j < i, matchAt (line.data.drop j) = none) := by
  refine ⟨get_mesh_names_eq lines, ?_, fun m hm => mem_get_mesh_names_shape hm, ?_, ?_⟩
  · rw [get_mesh_names_eq]
    exact nodup_dedupF _
  · unfold get_mesh_ids
    apply mapM_option_eq_some
    intro m hm
    obtain ⟨ds, hne, hdig, hdata⟩ := mem_get_mesh_names_shape hm
    rw [hdata, replObj_digits ds hdig]
    exact pyInt_digits ds hne hdig
  · intro line m hline
    unfold extractMesh at hline
    split at hline
    · rename_i hcont
      obtain ⟨md, hmd, hmk⟩ := Option.map_eq_some'.mp hline
      obtain ⟨i, hi, hj⟩ := lineMatch_leftmost hmd
      exact ⟨hcont, i, by rw [← hmk]; exact hi, hj⟩
    · exact absurd hline (by simp)

/-! ### Claim C7: the `Group` type-tag merge -/

/-- C7: for every node whose `@type` is the single string `"Structure"`,
one application of `add_members_to_group` yields a `@type` list whose
elements are exactly `{"Structure", "Group"}` with no duplicate `"Group"`
tag, and a second application leaves that `@type` unchanged. -/
theorem C7_group_tag_merge (s m m2 : Node) (h : s.type = some (TyVal.s "Structure")) :
    (add_members_to_group s m).type = some (TyVal.l ["Structure", "Group"]) ∧
    (∀ x : String, x ∈ (["Structure", "Group"] : List String) ↔
      (x = "Structure" ∨ x = "Group")) ∧
    (["Structure", "Group"] : List String).count "Group" = 1 ∧
    (add_members_to_group (add_members_to_group s m) m2).type =
      some (TyVal.l ["Structure", "Group"]) := by
  have h1 : (add_members_to_group s m).type = some (TyVal.l ["Structure", "Group"]) := by
    simp [add_members_to_group, h]
  have h2 : ∀ t : Node, t.type = some (TyVal.l ["Structure", "Group"]) →
      (add_members_to_group t m2).type = some (TyVal.l ["Structure", "Group"]) := by
    intro t ht
    simp [add_members_to_group, ht]
  exact ⟨h1, by simp, by simp, h2 _ h1⟩

theorem structId_mem_atlas_ids {ont : Dict Int Entry} {D : List Int} {m : Int}
    (hmD : m ∈ D) : structId m ∈ (atlasNodes ont D).map Node.id := by
  rw [atlas_ids]
  exact List.mem_cons_of_mem _ (List.mem_append_left _ (List.mem_append_left _
    (List.mem_append_right _ (List.mem_map_of_mem _ hmD))))

theorem meshId_mem_atlas_ids {ont : Dict Int Entry} {D : List Int} {m : Int}
    (hmD : m ∈ D) : meshId m ∈ (atlasNodes ont D).map Node.id := by
  rw [atlas_ids]
  exact List.mem_cons_of_mem _ (List.mem_append_left _ (List.mem_append_left _
    (List.mem_append_left _ (List.mem_append_left _
      (List.mem_append_right _ (List.mem_map_of_mem _ hmD))))))

theorem maskId_mem_atlas_ids {ont : Dict Int Entry} {D : List Int} {m r : Int}
    (hmD : m ∈ D) (hr : r ∈ resolutions) :
    maskId r m ∈ (atlasNodes ont D).map Node.id := by
  rw [atlas_ids]
  refine List.mem_cons_of_mem _ (List.mem_append_left _ (List.mem_append_left _
    (List.mem_append_left _ (List.mem_append_right _ ?_))))
  exact List.mem_flatMap.mpr ⟨m, hmD, List.mem_map_of_mem _ hr⟩

theorem structNodeOf_mem_atlas {ont : Dict Int Entry} {D : List Int} {m : Int}
    (hmD : m ∈ D) : structNodeOf ont m ∈ atlasNodes ont D := by
  rw [atlasNodes]
  exact List.mem_cons_of_mem _ (List.mem_append_left _ (List.mem_append_left _
    (List.mem_append_right _ (List.mem_map_of_mem _ hmD))))

theorem meshDSNode_mem_atlas {ont : Dict Int Entry} {D : List Int} {m : Int}
    (hmD : m ∈ D) : meshDSNode m ∈ atlasNodes ont D := by
  rw [atlasNodes]
  exact List.mem_cons_of_mem _ (List.mem_append_left _ (List.mem_append_left _
    (List.mem_append_left _ (List.mem_append_left _
      (List.mem_append_right _ (List.mem_map_of_mem _ hmD))))))

/-- Any node of the canonical list carrying the `@id` of a canonical node is
that node (ids are unique). -/
theorem atlas_node_eq_of_id {ont : Dict Int Entry} {D : List Int} (hD : D.Nodup)
    {nd cn : Node} (hnd : nd ∈ atlasNodes ont D) (hcn : cn ∈ atlasNodes ont D)
    (hid : nd.id = cn.id) : nd = cn :=
  List.inj_on_of_nodup_map (atlas_ids_nodup ont D hD) hnd hcn hid

/-- C5: all `@id` values of a successful `build_atlas` run are pairwise
distinct. -/
theorem C5_ids_pairwise_distinct (ont : Dict Int Entry) (ids : List Int) (ns : List Node)
    (h : build_atlas ont ids = some ns) :
    (ns.map Node.id).Pairwise (· ≠ ·) := by
  obtain ⟨_, _, hns⟩ := build_atlas_some_inv h
  subst hns
  exact atlas_ids_nodup ont (dedupF ids) (nodup_dedupF ids)

/-- Witness for C5 at a concrete input (with a duplicated mesh id). -/
theorem C5_ids_pairwise_distinct_witness :
    ((((build_atlas rootOnt [997, 997]).getD []).map Node.id).Pairwise (· ≠ ·)) :=
  C5_ids_pairwise_distinct rootOnt [997, 997]
    ((build_atlas rootOnt [997, 997]).getD []) (by rfl)

/-- C1: for every mesh id in the input (duplicates included), the output has
exactly one node with `@id` `#structure_<id>` and exactly one with `@id`
`#mesh_ds_<id>`; they are a `Structure` node and a triangle-mesh
`DataSource` node respectively. -/
theorem C1_unique_structure_and_mesh_nodes (ont : Dict Int Entry) (ids : List Int)
    (ns : List Node) (m : Int) (h : build_atlas ont ids = some ns) (hm : m ∈ ids) :
    (ns.map Node.id).count (structId m) = 1 ∧
    (ns.map Node.id).count (meshId m) = 1 ∧
    (∀ nd ∈ ns, nd.id = structId m → nd.type = some (TyVal.s "Structure")) ∧
    (∀ nd ∈ ns, nd.id = meshId m →
      nd.type = some (TyVal.l
        ["DataSource", "GeometryDataSource", "TriangleMeshDataSource"])) := by
  obtain ⟨_, _, hns⟩ := build_atlas_some_inv h
  subst hns
  have hD : (dedupF ids).Nodup := nodup_dedupF ids
  have hmD : m ∈ dedupF ids := (mem_dedupF ids m).mpr hm
  have hnd := atlas_ids_nodup ont (dedupF ids) hD
  refine ⟨List.count_eq_one_of_mem hnd (structId_mem_atlas_ids hmD),
    List.count_eq_one_of_mem hnd (meshId_mem_atlas_ids hmD), ?_, ?_⟩
  · intro nd hmem hid
    have : nd = structNodeOf ont m :=
      atlas_node_eq_of_id hD hmem (structNodeOf_mem_atlas hmD) hid
    rw [this]
    rfl
  · intro nd hmem hid
    have : nd = meshDSNode m :=
      atlas_node_eq_of_id hD hmem (meshDSNode_mem_atlas hmD) hid
    rw [this]
    rfl

/-- Witness for C1 at a concrete input with a duplicated mesh id. -/
theorem C1_unique_structure_and_mesh_nodes_witness :
    ((((build_atlas rootOnt [997, 997]).getD []).map Node.id).count (structId 997) = 1) ∧
    ((((build_atlas rootOnt [997, 997]).getD []).map Node.id).count (meshId 997) = 1) ∧
    (∀ nd ∈ (build_atlas rootOnt [997, 997]).getD [], nd.id = structId 997 →
      nd.type = some (TyVal.s "Structure")) ∧
    (∀ nd ∈ (build_atlas rootOnt [997, 997]).getD [], nd.id = meshId 997 →
      nd.type = some (TyVal.l
        ["DataSource", "GeometryDataSource", "TriangleMeshDataSource"])) :=
  C1_unique_structure_and_mesh_nodes rootOnt [997, 997]
    ((build_atlas rootOnt [997, 997]).getD []) 997 (by rfl) (by decide)

/-- C2: for every mesh id and resolution there is exactly one mask
`DataSource` node, and the corresponding `Structure`'s `shape.dataSource` is
the mesh data-source id followed by the four per-resolution mask ids. -/
theorem C2_mask_nodes_and_structure_shape (ont : Dict Int Entry) (ids : List Int)
    (ns : List Node) (m r : Int) (h : build_atlas ont ids = some ns) (hm : m ∈ ids)
    (hr : r ∈ resolutions) :
    (ns.map Node.id).count (maskId r m) = 1 ∧
    (∀ nd ∈ ns, nd.id = structId m →
      nd.shape = some ⟨meshId m :: resolutions.map (fun r2 => maskId r2 m)⟩) := by
  obtain ⟨_, _, hns⟩ := build_atlas_some_inv h
  subst hns
  have hD : (dedupF ids).Nodup := nodup_dedupF ids
  have hmD : m ∈ dedupF ids := (mem_dedupF ids m).mpr hm
  have hnd := atlas_ids_nodup ont (dedupF ids) hD
  refine ⟨List.count_eq_one_of_mem hnd (maskId_mem_atlas_ids hmD hr), ?_⟩
  intro nd hmem hid
  have : nd = structNodeOf ont m :=
    atlas_node_eq_of_id hD hmem (structNodeOf_mem_atlas hmD) hid
  rw [this]
  rfl

/-- Witness for C2 at a concrete input. -/
theorem C2_mask_nodes_and_structure_shape_witness :
    ((((build_atlas rootOnt [997]).getD []).map Node.id).count (maskId 25 997) = 1) ∧
    (∀ nd ∈ (build_atlas rootOnt [997]).getD [], nd.id = structId 997 →
      nd.shape = some ⟨meshId 997 :: resolutions.map (fun r2 => maskId r2 997)⟩) :=
  C2_mask_nodes_and_structure_shape rootOnt [997]
    ((build_atlas rootOnt [997]).getD []) 997 25 (by rfl) (by decide) (by decide)

/-- C3: the first element of a successful run is the `Header` node and its
`root` is exactly `["#structure_997"]`. -/
theorem C3_header_first_and_root (ont : Dict Int Entry) (ids : List Int) (ns : List Node)
    (h : build_atlas ont ids = some ns) :
    ∃ hd, ns.head? = some hd ∧ hd.type = some (TyVal.s "Header") ∧
      hd.root = some ["#structure_997"] := by
  obtain ⟨_, _, hns⟩ := build_atlas_some_inv h
  subst hns
  exact ⟨_, rfl, rfl, rfl⟩

/-- Witness for C3 at a concrete input. -/
theorem C3_header_first_and_root_witness :
    ∃ hd, ((build_atlas rootOnt [997]).getD []).head? = some hd ∧
      hd.type = some (TyVal.s "Header") ∧ hd.root = some ["#structure_997"] :=
  C3_header_first_and_root rootOnt [997] ((build_atlas rootOnt [997]).getD []) (by rfl)

/-! ### Claim C4: the hierarchy linker -/

theorem linkEntry_parent (ont : Dict Int Entry) (ps : List Int) (k : Int) (e : Entry) :
    (linkEntry ont ps k e).parent_structure_id = e.parent_structure_id := by
  unfold linkEntry
  split <;> rfl

theorem linkEntry_id (ont : Dict Int Entry) (ps : List Int) (k : Int) (e : Entry) :
    (linkEntry ont ps k e).id = e.id := by
  unfold linkEntry
  split <;> rfl

theorem linkEntry_child {e : Entry} (ont : Dict Int Entry) (ps : List Int) (k : Int)
    (hch : e.child_structure_ids = none) :
    (linkEntry ont ps k e).child_structure_ids.getD [] =
      (childKeys ont ps k).map Cell.int := by
  unfold linkEntry
  split
  · rename_i heq
    rw [hch, heq]
    rfl
  · rfl

theorem linkEntry_of_ne_nil {ont : Dict Int Entry} {ps : List Int} {k : Int} (e : Entry)
    (h : childKeys ont ps k ≠ []) :
    linkEntry ont ps k e =
      { e with child_structure_ids := some ((childKeys ont ps k).map Cell.int) } := by
  unfold linkEntry
  split
  · rename_i heq
    exact absurd heq h
  · rfl

theorem entry_override_linkEntry (ont : Dict Int Entry) (ps : List Int) (q : Int)
    (pe : Entry) (X : Option (List Cell)) :
    { linkEntry ont ps q pe with child_structure_ids := X } =
      { pe with child_structure_ids := X } := by
  unfold linkEntry
  split <;> rfl

theorem dlookup_partialLink (ont : Dict Int Entry) (ps : List Int) (k : Int) :
    dlookup (partialLink ont ps) k = (dlookup ont k).map (linkEntry ont ps k) :=
  dlookup_map_keyed (linkEntry ont ps) ont k

theorem dkeys_partialLink (ont : Dict Int Entry) (ps : List Int) :
    dkeys (partialLink ont ps) = dkeys ont :=
  dkeys_map_keyed _ ont

theorem partialLink_nil (ont : Dict Int Entry) : partialLink ont [] = ont := by
  unfold partialLink linkEntry childKeys
  simp

theorem isChildOf_of_lookup {ont : Dict Int Entry} {j : Int} {e : Entry}
    (hk : dlookup ont j = some e) (q : Int) :
    isChildOf ont q j = decide (e.parent_structure_id = Cell.int q) := by
  unfold isChildOf
  rw [hk]

theorem childKeys_append_yes {ont : Dict Int Entry} {k q : Int} {e : Entry}
    (hk : dlookup ont k = some e) (hpar : e.parent_structure_id = Cell.int q)
    (ps : List Int) : childKeys ont (ps ++ [k]) q = childKeys ont ps q ++ [k] := by
  unfold childKeys
  rw [List.filter_append]
  congr 1
  simp [List.filter, isChildOf_of_lookup hk, hpar]

theorem childKeys_append_no {ont : Dict Int Entry} {k q : Int} {e : Entry}
    (hk : dlookup ont k = some e) (hpar : e.parent_structure_id ≠ Cell.int q)
    (ps : List Int) : childKeys ont (ps ++ [k]) q = childKeys ont ps q := by
  unfold childKeys
  rw [List.filter_append]
  have hf : [k].filter (isChildOf ont q) = [] := by
    simp [List.filter, isChildOf_of_lookup hk, hpar]
  rw [hf, List.append_nil]

theorem partialLink_append_skip {ont : Dict Int Entry} {k : Int} {e : Entry}
    (hk : dlookup ont k = some e)
    (hpar : ∀ q : Int, e.parent_structure_id ≠ Cell.int q) (ps : List Int) :
    partialLink ont (ps ++ [k]) = partialLink ont ps := by
  unfold partialLink
  apply List.map_congr_left
  intro p _
  have hc : childKeys ont (ps ++ [k]) p.1 = childKeys ont ps p.1 :=
    childKeys_append_no hk (hpar p.1) ps
  unfold linkEntry
  rw [hc]

theorem partialLink_append_link {ont : Dict Int Entry} {k q : Int} {e pe : Entry}
    (hnd : (dkeys ont).Nodup)
    (hch : ∀ p ∈ ont, (p.2).child_structure_ids = none)
    (hk : dlookup ont k = some e) (hpar : e.parent_structure_id = Cell.int q)
    (hid : e.id = Cell.int k)
    (hq : dlookup ont q = some pe) (ps : List Int) :
    dinsert (partialLink ont ps) q
      { linkEntry ont ps q pe with
        child_structure_ids :=
          some ((linkEntry ont ps q pe).child_structure_ids.getD [] ++ [e.id]) } =
      partialLink ont (ps ++ [k]) := by
  have hqmem : q ∈ dkeys (partialLink ont ps) := by
    rw [dkeys_partialLink, mem_dkeys_iff_isSome, hq]
    rfl
  have hpech : pe.child_structure_ids = none := hch (q, pe) (dlookup_mem hq)
  have hck : childKeys ont (ps ++ [k]) q = childKeys ont ps q ++ [k] :=
    childKeys_append_yes hk hpar ps
  have hval : { linkEntry ont ps q pe with
      child_structure_ids :=
        some ((linkEntry ont ps q pe).child_structure_ids.getD [] ++ [e.id]) } =
      linkEntry ont (ps ++ [k]) q pe := by
    rw [linkEntry_child ont ps q hpech, hid, entry_override_linkEntry,
      linkEntry_of_ne_nil pe (by rw [hck]; simp), hck, List.map_append]
    rfl
  unfold dinsert
  rw [if_pos ((any_keys _ q).mpr hqmem)]
  unfold partialLink
  rw [List.map_map]
  apply List.map_congr_left
  intro p hp
  by_cases hpq : p.1 = q
  · have hpe2 : p.2 = pe := by
      have hl := dlookup_of_mem_nodup hnd hp
      rw [hpq, hq] at hl
      injection hl with hl2
      exact hl2.symm
    simp [hpq, hpe2, hval]
  · have hc : childKeys ont (ps ++ [k]) p.1 = childKeys ont ps p.1 := by
      refine childKeys_append_no hk ?_ ps
      rw [hpar]
      intro hcon
      injection hcon with hcon2
      exact hpq hcon2.symm
    have hle : linkEntry ont (ps ++ [k]) p.1 p.2 = linkEntry ont ps p.1 p.2 := by
      unfold linkEntry
      rw [hc]
    simp [hpq, hle]

/-- The `find_children` loop computes `partialLink` over the processed
prefix, provided keys are unique, no entry has a `child_structure_ids` field
yet, each entry's `id` field equals its key, and every non-empty parent
reference resolves. -/
theorem fc_go_spec (ont : Dict Int Entry)
    (hnd : (dkeys ont).Nodup)
    (hch : ∀ p ∈ ont, (p.2).child_structure_ids = none)
    (hid : ∀ p ∈ ont, (p.2).id = Cell.int p.1)
    (hres : ∀ p ∈ ont, (p.2).parent_structure_id = Cell.str "" ∨
      ∃ q, (p.2).parent_structure_id = Cell.int q ∧ q ∈ dkeys ont) :
    ∀ (ks ps : List Int), dkeys ont = ps ++ ks →
      fc_go (partialLink ont ps) ks = some (partialLink ont (ps ++ ks)) := by
  intro ks
  induction ks with
  | nil =>
    intro ps _
    simp [fc_go]
  | cons k ks ih =>
    intro ps hsplit
    have hkmem : k ∈ dkeys ont := by rw [hsplit]; simp
    obtain ⟨e, he⟩ : ∃ e, dlookup ont k = some e := by
      rw [mem_dkeys_iff_isSome] at hkmem
      exact Option.isSome_iff_exists.mp hkmem
    have hkent : (k, e) ∈ ont := dlookup_mem he
    have hlk : dlookup (partialLink ont ps) k = some (linkEntry ont ps k e) := by
      rw [dlookup_partialLink, he]
      rfl
    have hsplit2 : dkeys ont = (ps ++ [k]) ++ ks := by
      rw [hsplit, List.append_assoc]
      rfl
    rcases hres (k, e) hkent with hstr | ⟨q, hq, hqmem⟩
    · -- root entry: skipped
      have hpp : (linkEntry ont ps k e).parent_structure_id = Cell.str "" := by
        rw [linkEntry_parent]
        exact hstr
      simp only [fc_go, hlk, if_pos hpp]
      have hskip : partialLink ont (ps ++ [k]) = partialLink ont ps :=
        partialLink_append_skip he
          (fun q h => by rw [hstr] at h; exact Cell.noConfusion h) ps
      have hgoal := ih (ps ++ [k]) hsplit2
      rw [hskip] at hgoal
      rw [hgoal, List.append_assoc]
      rfl
    · -- entry with a resolving parent q
      obtain ⟨pe, hpe⟩ : ∃ pe, dlookup ont q = some pe := by
        rw [mem_dkeys_iff_isSome] at hqmem
        exact Option.isSome_iff_exists.mp hqmem
      have hppar : (linkEntry ont ps k e).parent_structure_id = Cell.int q := by
        rw [linkEntry_parent]
        exact hq
      have hnostr : ¬((linkEntry ont ps k e).parent_structure_id = Cell.str "") := by
        rw [hppar]
        intro hcon
        exact Cell.noConfusion hcon
      have hpyl : pylookup (partialLink ont ps)
          (linkEntry ont ps k e).parent_structure_id =
          some (q, linkEntry ont ps q pe) := by
        rw [hppar]
        show (dlookup (partialLink ont ps) q).map (fun e => (q, e)) = _
        rw [dlookup_partialLink, hpe]
        rfl
      simp only [fc_go, hlk, if_neg hnostr, hpyl]
      rw [linkEntry_id ont ps k e]
      have hupd := partialLink_append_link hnd hch he hq (hid (k, e) hkent) hpe ps
      have hgoal := ih (ps ++ [k]) hsplit2
      rw [← hupd] at hgoal
      have hfin : partialLink ont (ps ++ [k] ++ ks) = partialLink ont (ps ++ k :: ks) := by
        rw [List.append_assoc]
        rfl
      rw [hfin] at hgoal
      exact hgoal

/-- Under the well-formedness hypotheses, `find_children` succeeds and
returns the fully linked ontology. -/
theorem find_children_eq (ont : Dict Int Entry)
    (hnd : (dkeys ont).Nodup)
    (hch : ∀ p ∈ ont, (p.2).child_structure_ids = none)
    (hid : ∀ p ∈ ont, (p.2).id = Cell.int p.1)
    (hres : ∀ p ∈ ont, (p.2).parent_structure_id = Cell.str "" ∨
      ∃ q, (p.2).parent_structure_id = Cell.int q ∧ q ∈ dkeys ont) :
    find_children ont = some (partialLink ont (dkeys ont)) := by
  have h := fc_go_spec ont hnd hch hid hres (dkeys ont) [] rfl
  rw [partialLink_nil] at h
  unfold find_children
  simpa using h

theorem cellInt_injective : Function.Injective Cell.int := by
  intro a b h
  injection h

/-- C4: after one linker run on a well-formed ontology (no entry has a
`child_structure_ids` field yet, ids match keys, and every non-empty parent
reference resolves), every entry with a non-empty parent appears exactly
once in its parent's `child_structure_ids` list, and entries with an empty
parent appear in nobody's list. -/
theorem C4_children_linked_once (ont : Dict Int Entry)
    (hnd : (dkeys ont).Nodup)
    (hch : ∀ p ∈ ont, (p.2).child_structure_ids = none)
    (hid : ∀ p ∈ ont, (p.2).id = Cell.int p.1)
    (hres : ∀ p ∈ ont, (p.2).parent_structure_id = Cell.str "" ∨
      ∃ q, (p.2).parent_structure_id = Cell.int q ∧ q ∈ dkeys ont) :
    ∃ ont2, find_children ont = some ont2 ∧ dkeys ont2 = dkeys ont ∧
      (∀ k e q, dlookup ont k = some e → e.parent_structure_id = Cell.int q →
        ∃ pe, dlookup ont2 q = some pe ∧
          (pe.child_structure_ids.getD []).count (Cell.int k) = 1) ∧
      (∀ k e, dlookup ont k = some e → e.parent_structure_id = Cell.str "" →
        ∀ q pe, dlookup ont2 q = some pe →
          Cell.int k ∉ pe.child_structure_ids.getD []) := by
  refine ⟨partialLink ont (dkeys ont), find_children_eq ont hnd hch hid hres,
    dkeys_partialLink ont (dkeys ont), ?_, ?_⟩
  · intro k e q hke hpar
    have hkent : (k, e) ∈ ont := dlookup_mem hke
    have hqmem : q ∈ dkeys ont := by
      rcases hres (k, e) hkent with hstr | ⟨q2, hq2, hq2mem⟩
      · rw [hpar] at hstr
        exact Cell.noConfusion hstr
      · have hqq : Cell.int q = Cell.int q2 := by rw [← hpar, hq2]
        injection hqq with hqq2
        rw [hqq2]
        exact hq2mem
    obtain ⟨pe0, hpe0⟩ : ∃ pe0, dlookup ont q = some pe0 := by
      rw [mem_dkeys_iff_isSome] at hqmem
      exact Option.isSome_iff_exists.mp hqmem
    refine ⟨linkEntry ont (dkeys ont) q pe0, ?_, ?_⟩
    · rw [dlookup_partialLink, hpe0]
      rfl
    · rw [linkEntry_child ont (dkeys ont) q (hch (q, pe0) (dlookup_mem hpe0))]
      rw [List.count_map_of_injective _ _ cellInt_injective]
      unfold childKeys
      rw [List.count_filter (by rw [isChildOf_of_lookup hke]; simp [hpar])]
      exact List.count_eq_one_of_mem hnd (by rw [mem_dkeys_iff_isSome, hke]; rfl)
  · intro k e hke hpar q pe hpe
    rw [dlookup_partialLink] at hpe
    obtain ⟨pe0, hpe0, hpe0e⟩ := Option.map_eq_some'.mp hpe
    intro hmem
    rw [← hpe0e,
      linkEntry_child ont (dkeys ont) q (hch (q, pe0) (dlookup_mem hpe0))] at hmem
    obtain ⟨j, hj, hje⟩ := List.mem_map.mp hmem
    injection hje with hje2
    subst hje2
    unfold childKeys at hj
    have hf := List.of_mem_filter hj
    rw [isChildOf_of_lookup hke, hpar] at hf
    simp at hf

/-- Witness for C4 at a concrete two-entry ontology. -/
theorem C4_children_linked_once_witness :
    ∃ ont2, find_children linkOnt = some ont2 ∧ dkeys ont2 = dkeys linkOnt ∧
      (∀ k e q, dlookup linkOnt k = some e → e.parent_structure_id = Cell.int q →
        ∃ pe, dlookup ont2 q = some pe ∧
          (pe.child_structure_ids.getD []).count (Cell.int k) = 1) ∧
      (∀ k e, dlookup linkOnt k = some e → e.parent_structure_id = Cell.str "" →
        ∀ q pe, dlookup ont2 q = some pe →
          Cell.int k ∉ pe.child_structure_ids.getD []) :=
  C4_children_linked_once linkOnt (by decide) (by decide) (by decide)
    (by
      intro p hp
      simp only [linkOnt, List.mem_cons, List.not_mem_nil, or_false] at hp
      rcases hp with rfl | rfl
      · exact Or.inl (by decide)
      · exact Or.inr ⟨997, by decide, by decide⟩)

/-! ### Claim C9: the ontology loader -/

theorem loader_preserve (header : List String) (row : List String) (n : Int) :
    ∀ (rows : List (List String)) (acc m : Dict Int Record),
      rows.foldlM (loaderStep header) acc = some m →
      dlookup acc n = some (mkRecord header row) →
      (∀ row2 ∈ rows, rowKey header row2 = some n → row2 = row) →
      dlookup m n = some (mkRecord header row) := by
  intro rows
  induction rows with
  | nil =>
    intro acc m h hacc _
    simp only [List.foldlM_nil] at h
    injection h with h
    subst h
    exact hacc
  | cons r rows ih =>
    intro acc m h hacc huniq
    rw [List.foldlM_cons] at h
    cases hstep : loaderStep header acc r with
    | none =>
      rw [hstep] at h
      exact absurd h (by simp)
    | some acc2 =>
      rw [hstep] at h
      simp only [Option.bind_eq_bind, Option.some_bind] at h
      unfold loaderStep at hstep
      split at hstep
      · cases hrk : rowKey header r with
        | none => rw [hrk] at hstep; exact absurd hstep (by simp)
        | some k =>
          rw [hrk] at hstep
          injection hstep with hstep
          subst hstep
          by_cases hkn : k = n
          · subst hkn
            have hrr : r = row := huniq r (List.mem_cons_self _ _) hrk
            subst hrr
            exact ih _ _ h (by rw [dlookup_dinsert_self])
              (fun r2 h2 => huniq r2 (List.mem_cons_of_mem _ h2))
          · refine ih _ _ h ?_ (fun r2 h2 => huniq r2 (List.mem_cons_of_mem _ h2))
            rw [dlookup_dinsert_ne _ _ _ _ (Ne.symm hkn)]
            exact hacc
      · exact absurd hstep (by simp)

theorem loader_lookup (header : List String) (row : List String) (n : Int) :
    ∀ (rows : List (List String)) (acc m : Dict Int Record),
      rows.foldlM (loaderStep header) acc = some m →
      row ∈ rows →
      rowKey header row = some n →
      (∀ row2 ∈ rows, rowKey header row2 = some n → row2 = row) →
      dlookup m n = some (mkRecord header row) := by
  intro rows
  induction rows with
  | nil => intro acc m _ hrow; simp at hrow
  | cons r rows ih =>
    intro acc m h hrow hkey huniq
    rw [List.foldlM_cons] at h
    cases hstep : loaderStep header acc r with
    | none =>
      rw [hstep] at h
      exact absurd h (by simp)
    | some acc2 =>
      rw [hstep] at h
      simp only [Option.bind_eq_bind, Option.some_bind] at h
      rcases List.mem_cons.mp hrow with rfl | hrow2
      · unfold loaderStep at hstep
        split at hstep
        · rw [hkey] at hstep
          injection hstep with hstep
          subst hstep
          exact loader_preserve header row n rows _ m h (by rw [dlookup_dinsert_self])
            (fun r2 h2 => huniq r2 (List.mem_cons_of_mem _ h2))
        · exact absurd hstep (by simp)
      · exact ih _ _ h hrow2 hkey (fun r2 h2 => huniq r2 (List.mem_cons_of_mem _ h2))

/-- C9: the loader stores each cell through `possibly_int` (an integer when
the text parses as base-10, the original string otherwise) and indexes the
record under its integer-coerced `id` cell. -/
theorem C9_loader_row_storage (header : List String) (rows : List (List String))
    (row : List String) (n : Int) (m : Dict Int Record)
    (hload : get_allen_mouse_ontology header rows = some m)
    (hrow : row ∈ rows)
    (hkey : rowKey header row = some n)
    (huniq : ∀ row2 ∈ rows, rowKey header row2 = some n → row2 = row) :
    dlookup m n = some (mkRecord header row) ∧
    mkRecord header row = (header.zip row).map (fun kv => (kv.1, possibly_int kv.2)) ∧
    (∀ kv ∈ header.zip row,
      (∀ z : Int, pyInt kv.2 = some z → (kv.1, Cell.int z) ∈ mkRecord header row) ∧
      (pyInt kv.2 = none → (kv.1, Cell.str kv.2) ∈ mkRecord header row)) := by
  refine ⟨loader_lookup header row n rows [] m hload hrow hkey huniq, rfl, ?_⟩
  intro kv hkv
  constructor
  · intro z hz
    have hpi : possibly_int kv.2 = Cell.int z := by unfold possibly_int; rw [hz]
    rw [← hpi]
    exact List.mem_map.mpr ⟨kv, hkv, rfl⟩
  · intro hz
    have hpi : possibly_int kv.2 = Cell.str kv.2 := by unfold possibly_int; rw [hz]
    rw [← hpi]
    exact List.mem_map.mpr ⟨kv, hkv, rfl⟩

/-- Witness for C9 at a concrete input. -/
theorem C9_loader_row_storage_witness :
    dlookup ((get_allen_mouse_ontology loaderHeader loaderRows).getD []) 3 =
      some (mkRecord loaderHeader ["3", "abc"]) ∧
    mkRecord loaderHeader ["3", "abc"] =
      (loaderHeader.zip ["3", "abc"]).map (fun kv => (kv.1, possibly_int kv.2)) ∧
    (∀ kv ∈ loaderHeader.zip ["3", "abc"],
      (∀ z : Int, pyInt kv.2 = some z →
        (kv.1, Cell.int z) ∈ mkRecord loaderHeader ["3", "abc"]) ∧
      (pyInt kv.2 = none →
        (kv.1, Cell.str kv.2) ∈ mkRecord loaderHeader ["3", "abc"])) :=
  C9_loader_row_storage loaderHeader loaderRows ["3", "abc"] 3
    ((get_allen_mouse_ontology loaderHeader loaderRows).getD [])
    (by rfl) (by decide) (by rfl) (by decide)

/-- Witness for C7 at a concrete node. -/
theorem C7_group_tag_merge_witness :
    (add_members_to_group { id := "#a", type := some (TyVal.s "Structure") }
        { id := "#b" }).type = some (TyVal.l ["Structure", "Group"]) ∧
    (∀ x : String, x ∈ (["Structure", "Group"] : List String) ↔
      (x = "Structure" ∨ x = "Group")) ∧
    (["Structure", "Group"] : List String).count "Group" = 1 ∧
    (add_members_to_group
        (add_members_to_group { id := "#a", type := some (TyVal.s "Structure") }
          { id := "#b" }) { id := "#c" }).type = some (TyVal.l ["Structure", "Group"]) :=
  C7_group_tag_merge { id := "#a", type := some (TyVal.s "Structure") }
    { id := "#b" } { id := "#c" } rfl

end AllenAtlas
